import Mathlib

/-!
The package xpp: foothold sequences, rviz marker synchronisation, inverse kinematics.

A shallow embedding of `src/src/foothold.cc`, `src/src/marker_array_builder.cc` and
`src/robots/xpp_hyq/src/inverse_kinematics_hyq1.cc`.

Conventions of the embedding:
* A `double` that the code computes with (the sample times, the sampling interval and the
  loop variables of `AddTrajectory`) is a value of `Double`, the IEEE-754 binary64 numbers
  with every operation rounded to nearest, ties to even. A `double` that is only copied
  (coordinates, colours, scales) is the rational number it stands for, and the one vector
  sum of the inverse kinematics is the exact sum.
* `std::vector` is `List`; `push_back` is `++ [x]`; `at(i)` is a bounds-checked access that
  fails (`none`) out of range.
* A violated `assert`, a thrown `std::out_of_range` and a call with undefined behaviour
  (`front()` of an empty vector) are all the failure `none`.
* An `int` marker id counter wraps around modulo `2^32` into `[-2^31, 2^31)`, as the
  increment does on two's complement hardware; the one `int -> uint` conversion of the
  source is reduction modulo `2^32`.
-/

set_option autoImplicit false

namespace xpp

/-! ## Geometric primitives -/

/-- Eigen::Vector2d with exact coordinates. -/
structure Vector2d where
  x : ℚ
  y : ℚ
deriving DecidableEq, Repr

/-- Eigen::Vector3d with exact coordinates. -/
structure Vector3d where
  x : ℚ
  y : ℚ
  z : ℚ
deriving DecidableEq, Repr

/-! ## Machine numbers -/

/-- The value of a C++ `int` that holds the arithmetic result `n`: the representative of `n`
modulo `2^32` in `[-2^31, 2^31)` (two's complement wrap-around of `back().id + 1` and `i++`). -/
def wrapInt32 (n : Int) : Int :=
  (n + 2 ^ 31) % 2 ^ 32 - 2 ^ 31

/-- The value of an `int` counter that starts at `i` after `k` increments `i++`. -/
def advanceId (i : Int) : Nat → Int
  | 0 => i
  | k + 1 => advanceId (wrapInt32 (i + 1)) k

/-- A C++ `double` (IEEE-754 binary64): a finite value, given by the rational number it
represents, an infinity or a NaN. The sign of a zero is not recorded. -/
inductive Double where
  | finite (q : ℚ)
  | posInf
  | negInf
  | nan
deriving DecidableEq, Repr

namespace Double

/-- The power `2^k` for an integer exponent. -/
def pow2 (k : Int) : ℚ :=
  if 0 ≤ k then ((2 ^ k.toNat : Nat) : ℚ) else 1 / ((2 ^ (-k).toNat : Nat) : ℚ)

/-- The number of halvings that bring `n` below 2, within the given fuel. -/
def log2Aux : Nat → Nat → Nat
  | 0, _ => 0
  | fuel + 1, n => if 2 ≤ n then log2Aux fuel (n / 2) + 1 else 0

/-- The integer part of the binary logarithm of `n ≥ 1`. -/
def log2 (n : Nat) : Nat :=
  log2Aux n n

/-- The binary exponent of `a > 0`: the integer `e` with `2^e ≤ a < 2^(e+1)`. -/
def ilog2 (a : ℚ) : Int :=
  let e0 : Int := (log2 a.num.natAbs : Int) - (log2 a.den : Int)
  if pow2 e0 ≤ a then e0 else e0 - 1

/-- The integer nearest to `m ≥ 0`, the even one of the two when `m` lies half-way. -/
def roundHalfEven (m : ℚ) : Int :=
  let f : Int := Int.floor m
  let frac : ℚ := m - (f : ℚ)
  if frac < 1 / 2 then f
  else if 1 / 2 < frac then f + 1
  else if f % 2 = 0 then f else f + 1

/-- The number `a > 0` rounded to 53 significant bits (to the multiple of `2^-1074` below
the normal range), round to nearest, ties to even, with no bound on the exponent above. -/
def roundAbs (a : ℚ) : ℚ :=
  let e := max (ilog2 a) (-1022)
  let k := e - 52
  (roundHalfEven (a / pow2 k) : ℚ) * pow2 k

/-- The `double` that the exact result `q` of one operation, or a literal `q`, becomes:
round to nearest, ties to even, overflowing to an infinity from `2^1024` on. -/
def ofRat (q : ℚ) : Double :=
  if q = 0 then finite 0
  else
    let r := roundAbs |q|
    if pow2 1024 ≤ r then (if 0 < q then posInf else negInf)
    else finite (if 0 < q then r else -r)

/-- The conversion of a `size_t` to `double`. -/
def ofNat (n : Nat) : Double :=
  ofRat (n : ℚ)

/-- The sum `x + y` of two doubles. -/
def add : Double → Double → Double
  | finite a, finite b => ofRat (a + b)
  | nan, _ => nan
  | _, nan => nan
  | posInf, negInf => nan
  | negInf, posInf => nan
  | posInf, _ => posInf
  | negInf, _ => negInf
  | finite _, posInf => posInf
  | finite _, negInf => negInf

/-- The difference `x - y` of two doubles. -/
def sub : Double → Double → Double
  | finite a, finite b => ofRat (a - b)
  | nan, _ => nan
  | _, nan => nan
  | posInf, posInf => nan
  | negInf, negInf => nan
  | posInf, _ => posInf
  | negInf, _ => negInf
  | finite _, posInf => negInf
  | finite _, negInf => posInf

/-- The quotient `x / y` of two doubles; a zero divisor counts as `+0`. -/
def div : Double → Double → Double
  | finite a, finite b =>
    if b = 0 then (if a = 0 then nan else if 0 < a then posInf else negInf)
    else ofRat (a / b)
  | nan, _ => nan
  | _, nan => nan
  | finite _, posInf => finite 0
  | finite _, negInf => finite 0
  | posInf, finite b => if b < 0 then negInf else posInf
  | negInf, finite b => if b < 0 then posInf else negInf
  | posInf, posInf => nan
  | posInf, negInf => nan
  | negInf, posInf => nan
  | negInf, negInf => nan

/-- The comparison `x < y` of two doubles; it is false when either is a NaN. -/
def lt : Double → Double → Bool
  | finite a, finite b => decide (a < b)
  | nan, _ => false
  | _, nan => false
  | negInf, negInf => false
  | negInf, _ => true
  | posInf, _ => false
  | finite _, posInf => true
  | finite _, negInf => false

/-- The function `floor` of `<cmath>`. -/
def floor : Double → Double
  | finite a => finite ((Int.floor a : Int) : ℚ)
  | x => x

/-- The conversion of a `double` to `size_t` (64 bits): the value truncated towards zero,
undefined (`none`) when that is not in `[0, 2^64)`. -/
def toSize : Double → Option Nat
  | finite a => if -1 < a ∧ a < 2 ^ 64 then some (Int.floor a).toNat else none
  | _ => none

end Double

/-! ## foothold.cc -/

/-- The class `Foothold`: position `p`, owning limb `leg`, sequence id `id`.
The limb enumeration `LegID` is declared in a header that is not part of the sources,
so it is a type parameter. -/
structure Foothold (Leg : Type) where
  p : Vector3d
  leg : Leg
  id : Int
deriving DecidableEq, Repr

/-- A `VecFoothold`. -/
abbrev VecFoothold (Leg : Type) := List (Foothold Leg)

/-- `Foothold::GetXy`: `p.topRows<2>()`. -/
def Foothold.GetXy {Leg : Type} (f : Foothold Leg) : Vector2d :=
  { x := f.p.x, y := f.p.y }

/-- `Foothold::SetXy(const Vector2d&)`: `p.topRows<2>() = xy`. -/
def Foothold.SetXy {Leg : Type} (f : Foothold Leg) (xy : Vector2d) : Foothold Leg :=
  { f with p := { x := xy.x, y := xy.y, z := f.p.z } }

/-- The loop `for (uint i=0; i<footholds.size(); ++i) footholds.at(i).SetXy(xy.at(i));`
with `n` iterations left and loop counter `i`. -/
def SetXyLoop {Leg : Type} (xy : List Vector2d) :
    Nat → Nat → VecFoothold Leg → Option (VecFoothold Leg)
  | 0, _, footholds => some footholds
  | n + 1, i, footholds =>
    match footholds[i]?, xy[i]? with
    | some f, some v => SetXyLoop xy n (i + 1) (footholds.set i (f.SetXy v))
    | _, _ => none

/-- `Foothold::SetXy(const StdVecEigen2d&, VecFoothold&)`: the size assertion, then the loop. -/
def SetXyVec {Leg : Type} (xy : List Vector2d) (footholds : VecFoothold Leg) :
    Option (VecFoothold Leg) :=
  if footholds.length = xy.length then SetXyLoop xy footholds.length 0 footholds else none

/-- `std::find_if(first, last, pred)` as the offset of the returned iterator from `first`;
the offset equals the length of the range exactly when the result is `last`. -/
def find_if {α : Type} (pred : α → Bool) : List α → Nat
  | [] => 0
  | a :: as => if pred a then 0 else find_if pred as + 1

/-- `Foothold::IsInFootholds`: `find_if(begin, end, f.leg == leg) != end`. -/
def IsInFootholds {Leg : Type} [DecidableEq Leg] (leg : Leg) (footholds : VecFoothold Leg) :
    Bool :=
  find_if (fun f => decide (f.leg = leg)) footholds != footholds.length

/-- `Foothold::GetLastIndex`: `find_if` over the reverse range gives `it = rbegin + r`; the
assertion `it != rend` fails when `r` is the size; otherwise `it.base() - 1` is at distance
`size - r - 1` from `begin`. -/
def GetLastIndex {Leg : Type} [DecidableEq Leg] (leg : Leg) (footholds : VecFoothold Leg) :
    Option Nat :=
  let r := find_if (fun f => decide (f.leg = leg)) footholds.reverse
  if r = footholds.length then none else some (footholds.length - r - 1)

/-- `Foothold::GetLastFoothold`. -/
def GetLastFoothold {Leg : Type} [DecidableEq Leg] (leg : Leg) (footholds : VecFoothold Leg) :
    Option (Foothold Leg) :=
  match GetLastIndex leg footholds with
  | some idx => footholds[idx]?
  | none => none

/-- `Foothold::UpdateFoothold`: replace at the last index of the limb, else append. -/
def UpdateFoothold {Leg : Type} [DecidableEq Leg] (f_new : Foothold Leg)
    (footholds : VecFoothold Leg) : Option (VecFoothold Leg) :=
  if IsInFootholds f_new.leg footholds then
    match GetLastIndex f_new.leg footholds with
    | some idx => if idx < footholds.length then some (footholds.set idx f_new) else none
    | none => none
  else
    some (footholds ++ [f_new])

/-- The index `i` is that of the last entry of `footholds` with limb `leg`. -/
def IsLastIndexOf {Leg : Type} (leg : Leg) (footholds : VecFoothold Leg) (i : Nat) : Prop :=
  (∃ f, footholds[i]? = some f ∧ f.leg = leg) ∧
    ∀ j f, i < j → footholds[j]? = some f → f.leg ≠ leg

/-! ## marker_array_builder.cc -/

/-- Modelled from the spec: the endeffector (limb) enumeration `EndeffectorID`, alias `EEID`,
is declared in `xpp/endeffectors.h`, which is not part of the sources. The builder names the
enumerators `E0`, `E1`, `E2`, `E3`; `other k` stands for any further enumerator. -/
inductive EndeffectorID where
  | E0
  | E1
  | E2
  | E3
  | other (k : Nat)
deriving DecidableEq, Repr

abbrev EEID := EndeffectorID

/-- The message `geometry_msgs::Point` (also used for `geometry_msgs::Vector3`). -/
structure Point where
  x : ℚ := 0
  y : ℚ := 0
  z : ℚ := 0
deriving DecidableEq, Repr

/-- The message `std_msgs::ColorRGBA`; a default-constructed message is all zero. -/
structure ColorRGBA where
  r : ℚ := 0
  g : ℚ := 0
  b : ℚ := 0
  a : ℚ := 0
deriving DecidableEq, Repr

/-- The fields of `visualization_msgs::Marker` that the modelled channels set: `header.frame_id`,
`ns`, `id`, `type`, `action`, `pose.position`, `scale`, `color` and `points`. The time stamp
(always the zero time `ros::Time()`), the orientation and the lifetime are left out. A
default-constructed message has every number zero and every string and array empty. -/
structure Marker where
  frame_id : String := ""
  ns : String := ""
  id : Int := 0
  type : Int := 0
  action : Int := 0
  position : Point := {}
  scale : Point := {}
  color : ColorRGBA := {}
  points : List Point := []
deriving DecidableEq, Repr

/-- A `visualization_msgs::MarkerArray`, as its `markers` vector. -/
abbrev MarkerArray := List Marker

/-- The constant `visualization_msgs::Marker::MODIFY`. -/
def Marker.MODIFY : Int := 0
/-- The constant `visualization_msgs::Marker::DELETE`. -/
def Marker.DELETE : Int := 2
/-- The constant `visualization_msgs::Marker::CUBE`. -/
def Marker.CUBE : Int := 1
/-- The constant `visualization_msgs::Marker::SPHERE`. -/
def Marker.SPHERE : Int := 2
/-- The constant `visualization_msgs::Marker::CYLINDER`. -/
def Marker.CYLINDER : Int := 3
/-- The constant `visualization_msgs::Marker::LINE_STRIP`. -/
def Marker.LINE_STRIP : Int := 4
/-- The constant `visualization_msgs::Marker::TRIANGLE_LIST`. -/
def Marker.TRIANGLE_LIST : Int := 11

/-- The file-level constant `supp_tr_topic`. -/
def supp_tr_topic : String := "support_polygons"
/-- The file-level constant `frame_id_`. -/
def frame_id_ : String := "world"

/-- The linear state `StateLin3d` of the base: position, velocity, acceleration. -/
structure StateLin3d where
  p : Vector3d
  v : Vector3d
  a : Vector3d
deriving DecidableEq, Repr

/-- An element of a `ContactVec`: position `p` and owning endeffector `ee`. -/
structure Contact where
  p : Vector3d
  ee : EEID
deriving DecidableEq, Repr

abbrev ContactVec := List Contact

/-- Modelled from the spec: a robot trajectory sample. Its class is declared in a header that
is not part of the sources; the fields are the values of the accessors the builder calls:
`GetTime()`, `GetBase().lin`, `GetEndeffectors()`, `GetContactState().At(ee)`,
`GetCurrentPhase()` and `GetContacts()`. -/
structure RobotState where
  time : Double
  base_lin : StateLin3d
  endeffectors : List EEID
  contact_state : EEID → Bool
  current_phase : Int
  contacts : ContactVec

/-- Modelled from the spec: `ros::RosHelpers::XppToRos<geometry_msgs::Point>` (declared in
`xpp/ros/ros_helpers.h`, not part of the sources) copies the three coordinates. -/
def XppToRos (v : Vector3d) : Point :=
  { x := v.x, y := v.y, z := v.z }

/-- The expression `(msg.markers.size() == 0)? 0 : msg.markers.back().id + 1`, an `int`. -/
def nextId (msg : MarkerArray) : Int :=
  match msg.getLast? with
  | none => 0
  | some m => wrapInt32 (m.id + 1)

/-- The conversion of an `int` to `uint` (32 bits): reduction modulo `2^32`. -/
def toUInt (n : Int) : Nat :=
  (n % (2 ^ 32 : Int)).toNat

set_option linter.unusedVariables false in
/-- `MarkerArrayBuilder::GetLegColor`. An id outside the `switch` leaves `color_leg`
default-constructed. -/
def GetLegColor (ee : EEID) : ColorRGBA :=
  let red : ColorRGBA := { r := 1, g := 0, b := 0, a := 1 }
  let green : ColorRGBA := { r := 0, g := 150 / 255, b := 76 / 255, a := 1 }
  let blue : ColorRGBA := { r := 0, g := 102 / 255, b := 204 / 255, a := 1 }
  let white : ColorRGBA := { r := 1, g := 1, b := 1, a := 1 }
  let brown : ColorRGBA := { r := 122 / 255, g := 61 / 255, b := 0, a := 1 }
  let yellow : ColorRGBA := { r := 204 / 255, g := 204 / 255, b := 0, a := 1 }
  let purple : ColorRGBA := { r := 72 / 255, g := 61 / 255, b := 139 / 255, a := 1 }
  match ee with
  | .E1 => purple
  | .E3 => green
  | .E0 => blue
  | .E2 => brown
  | _ => {}

/-- The padding loops `for (j = j0; j < bound; ++j)` whose body pushes a default marker with
`id = i++`, the namespace and `action = DELETE`. The first numeric argument bounds the number
of iterations; `bound` iterations always suffice because `j` grows by one each time. -/
def PushDeleteMarkers (ns : String) (bound : Nat) :
    Nat → Nat → Int → MarkerArray → MarkerArray
  | 0, _, _, msg => msg
  | fuel + 1, j, i, msg =>
    if j < bound then
      PushDeleteMarkers ns bound fuel (j + 1) (wrapInt32 (i + 1))
        (msg ++ [{ id := i, ns := ns, action := Marker.DELETE }])
    else msg

/-- `MarkerArrayBuilder::BuildSupportPolygon`. -/
def BuildSupportPolygon (msg : MarkerArray) (stance : ContactVec) (leg_id : EEID) :
    MarkerArray :=
  let i := nextId msg
  let marker : Marker :=
    { id := i, frame_id := frame_id_, ns := supp_tr_topic, action := Marker.MODIFY,
      scale := { x := 1, y := 1, z := 1 },
      color := { GetLegColor leg_id with a := 15 / 100 } }
  let points_per_triangle := 3
  let step3 : MarkerArray × Marker :=
    if stance.length = points_per_triangle then
      let m : Marker :=
        { marker with
          type := Marker.TRIANGLE_LIST,
          points := marker.points ++
            (stance.take points_per_triangle).map
              (fun c => ({ x := c.p.x, y := c.p.y, z := c.p.z } : Point)) }
      (msg ++ [m], m)
    else (msg, marker)
  let points_per_line := 2
  if stance.length = points_per_line then
    let m : Marker :=
      { step3.2 with
        type := Marker.LINE_STRIP,
        scale := { step3.2.scale with x := 2 / 100 },
        points := step3.2.points ++
          (stance.take points_per_line).map
            (fun c => ({ x := c.p.x, y := c.p.y, z := c.p.z } : Point)) }
    step3.1 ++ [m]
  else step3.1

/-- The inner loop of `AddSupportPolygons`: the last endeffector of the sample that is not in
contact, `E0` when there is none. -/
def swingleg (state : RobotState) : EEID :=
  state.endeffectors.foldl
    (fun sw ee => if !state.contact_state ee then ee else sw) EndeffectorID.E0

/-- The body of the `for` loop of `AddSupportPolygons` on the pair `(msg, prev_phase)`. -/
def SupportPolygonStep (acc : MarkerArray × Int) (state : RobotState) : MarkerArray × Int :=
  if state.current_phase ≠ acc.2 then
    (BuildSupportPolygon acc.1 state.contacts (swingleg state), state.current_phase)
  else acc

/-- The phase walk of `AddSupportPolygons`: the marker collection and `prev_phase` after the
`for` loop over the trajectory, started with `prev_phase = -1`. -/
def SupportPolygonWalk (robot_traj : List RobotState) (msg : MarkerArray) :
    MarkerArray × Int :=
  robot_traj.foldl SupportPolygonStep (msg, -1)

/-- `MarkerArrayBuilder::AddSupportPolygons`. -/
def AddSupportPolygons (robot_traj : List RobotState) (msg : MarkerArray) : MarkerArray :=
  let walk := SupportPolygonWalk robot_traj msg
  let i := nextId walk.1
  PushDeleteMarkers supp_tr_topic 30 30 (toUInt walk.2) i walk.1

/-- The marker `marker_msg` that the first loop of the five-argument `AddFootholds` builds
for the contact `c` when the id counter is `i`. -/
def FootholdMarker (rviz_namespace : String) (type : Int) (alpha : ℚ) (c : Contact)
    (i : Int) : Marker :=
  { type := type, action := Marker.MODIFY, position := XppToRos c.p,
    frame_id := frame_id_, ns := rviz_namespace, id := i,
    scale := { x := 4 / 100, y := 4 / 100, z := 4 / 100 },
    color := { GetLegColor c.ee with a := alpha } }

/-- The first loop of the five-argument `AddFootholds`: one marker per contact, in order,
with `id = i++`. -/
def PushFootholdMarkers (rviz_namespace : String) (type : Int) (alpha : ℚ) :
    ContactVec → Int → MarkerArray → Int × MarkerArray
  | [], i, msg => (i, msg)
  | c :: rest, i, msg =>
    PushFootholdMarkers rviz_namespace type alpha rest (wrapInt32 (i + 1))
      (msg ++ [FootholdMarker rviz_namespace type alpha c i])

/-- `MarkerArrayBuilder::AddFootholds(msg, contacts, rviz_namespace, type, alpha)`. -/
def AddFootholdsContacts (msg : MarkerArray) (contacts : ContactVec)
    (rviz_namespace : String) (type : Int) (alpha : ℚ) : MarkerArray :=
  let i := nextId msg
  let r := PushFootholdMarkers rviz_namespace type alpha contacts i msg
  PushDeleteMarkers rviz_namespace 80 80 contacts.length r.1 r.2

/-- The body of the `for` loop of `AddFootholds(msg)` on the pair `(contacts, prev_phase)`. -/
def FootholdStep (acc : ContactVec × Int) (state : RobotState) : ContactVec × Int :=
  if state.current_phase ≠ acc.2 then (acc.1 ++ state.contacts, state.current_phase)
  else acc

/-- The phase walk of `AddFootholds(msg)`: the accumulated contacts and `prev_phase` after the
loop, started with no contact and `prev_phase = -1`. -/
def FootholdWalk (robot_traj : List RobotState) : ContactVec × Int :=
  robot_traj.foldl FootholdStep ([], -1)

/-- `MarkerArrayBuilder::AddFootholds(msg)`. -/
def AddFootholds (robot_traj : List RobotState) (msg : MarkerArray) : MarkerArray :=
  AddFootholdsContacts msg (FootholdWalk robot_traj).1 "footholds" Marker.SPHERE 1

/-- `MarkerArrayBuilder::GenerateMarker`. -/
def GenerateMarker (pos : Vector2d) (type : Int) (size : ℚ) : Marker :=
  { position := { x := pos.x, y := pos.y, z := 0 },
    frame_id := frame_id_,
    type := type,
    action := Marker.MODIFY,
    scale := { x := size, y := size, z := size },
    color := { a := 1 } }

/-- `MarkerArrayBuilder::AddPoint`. The id written before the call of `GenerateMarker` is
overwritten by the assignment of its result. -/
def AddPoint (msg : MarkerArray) (goal : Vector2d) (rviz_namespace : String)
    (marker_type : Int) : MarkerArray :=
  let i := nextId msg
  let _marker : Marker := { id := i }
  let marker : Marker := GenerateMarker goal marker_type (2 / 100)
  let marker : Marker := { marker with ns := rviz_namespace }
  let marker : Marker := { marker with scale := { marker.scale with z := 4 / 100 } }
  let marker : Marker := { marker with color := { r := 0, g := 0, b := 0, a := 1 } }
  msg ++ [marker]

/-- `MarkerArrayBuilder::AddStart`; `Get2D().p` keeps the first two coordinates. -/
def AddStart (robot_traj : List RobotState) (msg : MarkerArray) : Option MarkerArray :=
  match robot_traj.head? with
  | none => none
  | some front =>
    some (AddPoint msg { x := front.base_lin.p.x, y := front.base_lin.p.y } "start"
      Marker.CYLINDER)

/-- `MarkerArrayBuilder::AddStartStance`. -/
def AddStartStance (robot_traj : List RobotState) (msg : MarkerArray) : Option MarkerArray :=
  match robot_traj.head? with
  | none => none
  | some front => some (AddFootholdsContacts msg front.contacts "start_stance" Marker.CUBE 1)

/-- The colour of a sample marker in `AddTrajectory`: mid-gray, then the colour of every
endeffector that is not in contact, in order, the last one winning. -/
def TrajectoryColor (state : RobotState) : ColorRGBA :=
  state.endeffectors.foldl
    (fun c ee => if !state.contact_state ee then GetLegColor ee else c)
    { r := 1 / 2, g := 1 / 2, b := 1 / 2, a := 1 }

/-- The marker that the sampling loop of `AddTrajectory` builds for the sample `state` when
the id counter is `i`: the generated sphere, then the id, the namespace and the colour. -/
def TrajectoryMarker (rviz_namespace : String) (marker_size : ℚ)
    (Get2dValue : StateLin3d → Vector2d) (state : RobotState) (i : Int) : Marker :=
  let marker := GenerateMarker (Get2dValue state.base_lin) Marker.SPHERE marker_size
  let marker : Marker := { marker with id := i, ns := rviz_namespace }
  { marker with color := TrajectoryColor state }

/-- The access `robot_traj_.at(floor(t/traj_dt))`: the quotient and its floor are doubles,
the argument of `at` is converted to `size_t`, and `at` throws out of range. -/
def TrajectoryAt (robot_traj : List RobotState) (traj_dt t : Double) : Option RobotState :=
  match Double.toSize (Double.floor (Double.div t traj_dt)) with
  | none => none
  | some k => robot_traj[k]?

/-- The sampling loop `for (double t(0.0); t < T; t += dt)` of `AddTrajectory`. The first
numeric argument is fuel; `none` is an exhausted fuel or a failed `robot_traj_.at(...)`. -/
def AddTrajectoryReal (robot_traj : List RobotState) (rviz_namespace : String)
    (dt : Double) (marker_size : ℚ) (Get2dValue : StateLin3d → Vector2d)
    (T traj_dt : Double) :
    Nat → Double → Int → MarkerArray → Option (Int × MarkerArray)
  | 0, _, _, _ => none
  | fuel + 1, t, i, msg =>
    if Double.lt t T then
      match TrajectoryAt robot_traj traj_dt t with
      | none => none
      | some state =>
        AddTrajectoryReal robot_traj rviz_namespace dt marker_size Get2dValue T traj_dt
          fuel (Double.add t dt) (wrapInt32 (i + 1))
          (msg ++ [TrajectoryMarker rviz_namespace marker_size Get2dValue state i])
    else some (i, msg)

/-- The padding loop `for (double t=T; t < 10.0; t += dt)` of `AddTrajectory`. The first
numeric argument is fuel; `none` is an exhausted fuel. -/
def AddTrajectoryDelete (rviz_namespace : String) (dt : Double) :
    Nat → Double → Int → MarkerArray → Option MarkerArray
  | 0, _, _, _ => none
  | fuel + 1, t, i, msg =>
    if Double.lt t (Double.finite 10) then
      AddTrajectoryDelete rviz_namespace dt fuel (Double.add t dt) (wrapInt32 (i + 1))
        (msg ++ [{ id := i, ns := rviz_namespace, action := Marker.DELETE }])
    else some msg

/-- The duration `T = robot_traj_.back().GetTime() - robot_traj_.front().GetTime()`. -/
def Duration (robot_traj : List RobotState) : Option Double :=
  match robot_traj.getLast?, robot_traj.head? with
  | some back, some front => some (Double.sub back.time front.time)
  | _, _ => none

/-- The sample spacing `traj_dt = T/robot_traj_.size()`. -/
def TrajDt (robot_traj : List RobotState) (T : Double) : Double :=
  Double.div T (Double.ofNat robot_traj.length)

/-- `MarkerArrayBuilder::AddTrajectory`, each of its two loops run with the given fuel. -/
def AddTrajectory (fuel : Nat) (robot_traj : List RobotState) (msg : MarkerArray)
    (rviz_namespace : String) (dt : Double) (marker_size : ℚ)
    (Get2dValue : StateLin3d → Vector2d) : Option MarkerArray :=
  let i := nextId msg
  match Duration robot_traj with
  | none => none
  | some T =>
    let traj_dt := TrajDt robot_traj T
    match AddTrajectoryReal robot_traj rviz_namespace dt marker_size Get2dValue T traj_dt
        fuel (Double.finite 0) i msg with
    | none => none
    | some r => AddTrajectoryDelete rviz_namespace dt fuel T r.1 r.2

/-- `MarkerArrayBuilder::AddBodyTrajectory`, with the literal `dt = 0.01`; `base.Get2D().p`
keeps the first two coordinates. -/
def AddBodyTrajectory (fuel : Nat) (robot_traj : List RobotState) (msg : MarkerArray) :
    Option MarkerArray :=
  AddTrajectory fuel robot_traj msg "body" (Double.ofRat (1 / 100)) (11 / 1000)
    (fun base => { x := base.p.x, y := base.p.y })

/-! ## inverse_kinematics_hyq1.cc -/

/-- The sum of two `Eigen::Vector3d`. -/
def Vector3d.add (u v : Vector3d) : Vector3d :=
  { x := u.x + v.x, y := u.y + v.y, z := u.z + v.z }

/-- Modelled from the spec: the container `EndeffectorsPos` (declared in `xpp/endeffectors.h`,
not part of the sources) holds one position per endeffector, indexed by the endeffector
number; `at(i)` fails when there is no entry `i`. -/
abbrev EndeffectorsPos := List Vector3d

/-- The vector `Eigen::VectorXd` of the joint angles of one leg. -/
abbrev Joints1EE := List ℚ

/-- Modelled from the spec: the class `Joints` (declared in `joints.h`, not part of the
sources), built from the vector of the per-leg joint vectors. -/
abbrev Joints := List Joints1EE

/-- `InverseKinematicsHyq1::GetAllJointAngles`. The member `leg` is a solver declared outside
the sources; its method `GetJointAngles` is the parameter `leg_GetJointAngles`. -/
def GetAllJointAngles (leg_GetJointAngles : Vector3d → Joints1EE) (x_B : EndeffectorsPos) :
    Option Joints :=
  let offset_base_to_hip : Vector3d := { x := 0, y := 0, z := 15 / 100 }
  match x_B[0]? with
  | none => none
  | some x0 =>
    let q0 := leg_GetJointAngles (x0.add offset_base_to_hip)
    some [q0]

/-! ## Specification vocabulary and sample inputs -/

/-- The `n` padding markers with the ids of a counter that starts at `i`: default markers
carrying only the id, the namespace and the action `DELETE`. -/
def deleteMarkers (ns : String) (i : Int) (n : Nat) : MarkerArray :=
  (List.range n).map
    (fun (k : Nat) => ({ id := advanceId i k, ns := ns, action := Marker.DELETE } : Marker))

/-- The ids of the list are those of an `int` counter that starts at `i` and is incremented
after each marker. -/
def IdsFrom (i : Int) (l : MarkerArray) : Prop :=
  ∀ (k : Nat) (m : Marker), l[k]? = some m → m.id = advanceId i k

/-- The value of a `double` loop variable that starts at `t` after `k` steps `t += dt`. -/
def sampledTime (dt : Double) : Double → Nat → Double
  | t, 0 => t
  | t, k + 1 => sampledTime dt (Double.add t dt) k

/-- The sampling loop of `AddTrajectory` makes exactly `a` iterations, each with a successful
lookup: its first `a` loop times are below `T` and have a sample, and the next one is not
below `T`. -/
def RealSamples (robot_traj : List RobotState) (dt T : Double) (a : Nat) : Prop :=
  (∀ k : Nat, k < a →
    Double.lt (sampledTime dt (Double.finite 0) k) T = true ∧
    (TrajectoryAt robot_traj (TrajDt robot_traj T)
      (sampledTime dt (Double.finite 0) k)).isSome = true) ∧
  Double.lt (sampledTime dt (Double.finite 0) a) T = false

instance (robot_traj : List RobotState) (dt T : Double) (a : Nat) :
    Decidable (RealSamples robot_traj dt T a) :=
  inferInstanceAs (Decidable ((∀ k : Nat, k < a →
    Double.lt (sampledTime dt (Double.finite 0) k) T = true ∧
    (TrajectoryAt robot_traj (TrajDt robot_traj T)
      (sampledTime dt (Double.finite 0) k)).isSome = true) ∧
  Double.lt (sampledTime dt (Double.finite 0) a) T = false))

/-- The padding loop of `AddTrajectory` makes exactly `b` iterations: its first `b` loop times
are below the horizon `10.0` and the next one is not. -/
def PaddingSamples (dt T : Double) (b : Nat) : Prop :=
  (∀ k : Nat, k < b → Double.lt (sampledTime dt T k) (Double.finite 10) = true) ∧
  Double.lt (sampledTime dt T b) (Double.finite 10) = false

instance (dt T : Double) (b : Nat) : Decidable (PaddingSamples dt T b) :=
  inferInstanceAs (Decidable
    ((∀ k : Nat, k < b → Double.lt (sampledTime dt T k) (Double.finite 10) = true) ∧
    Double.lt (sampledTime dt T b) (Double.finite 10) = false))

/-- A contact of endeffector `e` at `(x, 0, 0)`. -/
def sampleContact (x : ℚ) (e : EEID) : Contact :=
  { p := { x := x, y := 0, z := 0 }, ee := e }

/-- A sample of a four-legged robot at time `t` in phase `ph` whose contacts are `cs`; an
endeffector is in contact exactly when it owns one of the contacts. -/
def sampleState (t : ℚ) (ph : Int) (cs : ContactVec) : RobotState :=
  { time := Double.ofRat t,
    base_lin := { p := { x := t, y := 0, z := 1 / 2 }, v := { x := 0, y := 0, z := 0 },
                  a := { x := 0, y := 0, z := 0 } },
    endeffectors := [.E0, .E1, .E2, .E3],
    contact_state := fun e => cs.any (fun c => decide (c.ee = e)),
    current_phase := ph,
    contacts := cs }

/-- Three phases with contact sets of sizes 3, 2, 3 and the phase ids `first`, `first + 1`,
`first + 2`, at the times `0`, `1/2`, `1`. -/
def samplePhases (first : Int) : List RobotState :=
  [ sampleState 0 first [sampleContact 0 .E0, sampleContact 1 .E1, sampleContact 2 .E2],
    sampleState (1 / 2) (first + 1) [sampleContact 0 .E0, sampleContact 1 .E1],
    sampleState 1 (first + 2) [sampleContact 0 .E0, sampleContact 1 .E1, sampleContact 2 .E3] ]

/-- Two samples of one phase at the times `0` and `1`. -/
def sampleTwoTimes : List RobotState :=
  [ sampleState 0 0 [sampleContact 0 .E0, sampleContact 1 .E1, sampleContact 2 .E2],
    sampleState 1 0 [sampleContact 0 .E0, sampleContact 1 .E1, sampleContact 2 .E2] ]

/-- A trajectory of `n` samples in the phases `1, 2, ..., n`, each with three contacts. -/
def sampleManyPhases (n : Nat) : List RobotState :=
  (List.range n).map
    (fun (k : Nat) =>
      sampleState (k : ℚ) ((k : Int) + 1)
        [sampleContact 0 .E0, sampleContact 1 .E1, sampleContact 2 .E2])

/-- A foothold of limb `leg` (a number) at `(x, 0, z)` with sequence id `0`. -/
def sampleFoothold (x z : ℚ) (leg : Nat) : Foothold Nat :=
  { p := { x := x, y := 0, z := z }, leg := leg, id := 0 }

/-- A foothold sequence with two entries of limb 1 (at the indices 0 and 2) and one of
limb 2. -/
def sampleFootholds : VecFoothold Nat :=
  [sampleFoothold 0 (1 / 10) 1, sampleFoothold 1 (2 / 10) 2, sampleFoothold 2 (3 / 10) 1]

/-- Three horizontal positions. -/
def sampleXys : List Vector2d :=
  [{ x := 5, y := 6 }, { x := 7, y := 8 }, { x := 9, y := 10 }]

/-- The start-of-phase representatives of the phase walk shared by `AddSupportPolygons` and
`AddFootholds(msg)`: the samples at which `state.GetCurrentPhase() != prev_phase` holds, in
order, when the walk is entered with the given `prev_phase`. -/
def PhaseStartsFrom : Int → List RobotState → List RobotState
  | _, [] => []
  | prev_phase, state :: rest =>
    if state.current_phase ≠ prev_phase then
      state :: PhaseStartsFrom state.current_phase rest
    else PhaseStartsFrom prev_phase rest

/-- The start-of-phase representatives of a trajectory (`prev_phase` starts at `-1`). -/
def PhaseStarts (robot_traj : List RobotState) : List RobotState :=
  PhaseStartsFrom (-1) robot_traj

/-- The endeffectors of a sample that are not in contact, in the order of
`GetEndeffectors()`. -/
def swingLimbs (state : RobotState) : List EEID :=
  state.endeffectors.filter (fun ee => !state.contact_state ee)

/-- The neutral colour of `AddTrajectory`: `r = g = b = 0.5`, `a = 1`. -/
def midGray : ColorRGBA :=
  { r := 1 / 2, g := 1 / 2, b := 1 / 2, a := 1 }

/-- A sample whose endeffectors `E1` and `E2` are both out of contact. -/
def sampleTwoSwing : RobotState :=
  sampleState 0 0 [sampleContact 0 .E0, sampleContact 1 .E3]

/-- A sample with all four endeffectors in contact. -/
def sampleFullStance : RobotState :=
  sampleState 0 0
    [sampleContact 0 .E0, sampleContact 1 .E1, sampleContact 2 .E2, sampleContact 3 .E3]

/-- A foothold sequence has at most one entry per limb. -/
def LimbUnique {Leg : Type} (footholds : VecFoothold Leg) : Prop :=
  (footholds.map (fun f => f.leg)).Nodup

/-- The sequence obtained from `footholds` by the calls `UpdateFoothold(f, footholds)` for the
footholds `f` of `updates`, in order. -/
def UpdateFootholds {Leg : Type} [DecidableEq Leg] :
    List (Foothold Leg) → VecFoothold Leg → Option (VecFoothold Leg)
  | [], footholds => some footholds
  | f :: updates, footholds =>
    match UpdateFoothold f footholds with
    | some s => UpdateFootholds updates s
    | none => none

/-- A foothold of one of four limbs at `(x, 0, 0)` with sequence id `0`. -/
def sampleLegFoothold (x : ℚ) (leg : Fin 4) : Foothold (Fin 4) :=
  { p := { x := x, y := 0, z := 0 }, leg := leg, id := 0 }

/-! ## Properties of the foothold sequence operations -/

section FootholdLemmas

variable {Leg : Type}

theorem find_if_le_length {α : Type} (pred : α → Bool) (l : List α) :
    find_if pred l ≤ l.length := by
  induction l with
  | nil => simp [find_if]
  | cons a as ih =>
    by_cases h : pred a = true
    · simp [find_if, h]
    · simp [find_if, h, ih]

theorem find_if_eq_length_iff {α : Type} (pred : α → Bool) (l : List α) :
    find_if pred l = l.length ↔ ∀ a ∈ l, pred a = false := by
  induction l with
  | nil => simp [find_if]
  | cons a as ih =>
    by_cases h : pred a = true
    · simp [find_if, h]
    · simp [find_if, h, ih]

theorem IsInFootholds_iff [DecidableEq Leg] (leg : Leg) (footholds : VecFoothold Leg) :
    IsInFootholds leg footholds = true ↔ ∃ f ∈ footholds, f.leg = leg := by
  unfold IsInFootholds
  rw [bne_iff_ne, Ne, find_if_eq_length_iff]
  simp

theorem GetLastIndex_concat [DecidableEq Leg] (leg : Leg) (footholds : VecFoothold Leg) (a : Foothold Leg) :
    GetLastIndex leg (footholds ++ [a]) =
      if a.leg = leg then some footholds.length else GetLastIndex leg footholds := by
  unfold GetLastIndex
  by_cases h : a.leg = leg
  · simp [find_if, h]
  · simp only [List.reverse_append, List.reverse_cons, List.reverse_nil, List.nil_append,
      List.singleton_append, find_if, h, decide_False, Bool.false_eq_true, if_false,
      List.length_append, List.length_singleton, add_left_inj]
    by_cases hr : find_if (fun f => decide (f.leg = leg)) footholds.reverse = footholds.length
    · simp [hr]
    · simp only [hr, if_false, Option.some.injEq]
      omega

theorem IsLastIndexOf_unique (leg : Leg) (footholds : VecFoothold Leg) (i j : Nat)
    (hi : IsLastIndexOf leg footholds i) (hj : IsLastIndexOf leg footholds j) : i = j := by
  obtain ⟨⟨fi, hfi, hli⟩, hi2⟩ := hi
  obtain ⟨⟨fj, hfj, hlj⟩, hj2⟩ := hj
  rcases Nat.lt_trichotomy i j with h | h | h
  · exact absurd hlj (hi2 j fj h hfj)
  · exact h
  · exact absurd hli (hj2 i fi h hfi)

theorem GetLastIndex_eq_none_iff [DecidableEq Leg] (leg : Leg) (footholds : VecFoothold Leg) :
    GetLastIndex leg footholds = none ↔ ∀ f ∈ footholds, f.leg ≠ leg := by
  unfold GetLastIndex
  have h := find_if_eq_length_iff (fun f : Foothold Leg => decide (f.leg = leg)) footholds.reverse
  simp only [List.length_reverse, List.mem_reverse, decide_eq_false_iff_not] at h
  simp only [ite_eq_left_iff, reduceCtorEq, imp_false, not_not]
  exact h

theorem GetLastIndex_some_spec [DecidableEq Leg] (leg : Leg) (footholds : VecFoothold Leg) (i : Nat)
    (h : GetLastIndex leg footholds = some i) : IsLastIndexOf leg footholds i := by
  induction footholds using List.reverseRecOn generalizing i with
  | nil => simp [GetLastIndex, find_if] at h
  | append_singleton l a ih =>
    rw [GetLastIndex_concat] at h
    by_cases ha : a.leg = leg
    · simp only [ha, if_true, Option.some.injEq] at h
      subst h
      refine ⟨⟨a, by simp, ha⟩, ?_⟩
      intro j f hj hf
      have : j < (l ++ [a]).length := by
        by_contra hc
        rw [List.getElem?_eq_none (by omega)] at hf
        exact absurd hf (by simp)
      simp at this
      omega
    · simp only [ha, if_false] at h
      obtain ⟨⟨f, hf, hl⟩, h2⟩ := ih i h
      have hil : i < l.length := by
        by_contra hc
        rw [List.getElem?_eq_none (by omega)] at hf
        exact absurd hf (by simp)
      refine ⟨⟨f, by rw [List.getElem?_append_left hil]; exact hf, hl⟩, ?_⟩
      intro j g hj hg
      by_cases hjl : j < l.length
      · rw [List.getElem?_append_left hjl] at hg
        exact h2 j g hj hg
      · by_cases hje : j = l.length
        · subst hje
          simp at hg
          subst hg
          exact ha
        · rw [List.getElem?_eq_none (by simp; omega)] at hg
          exact absurd hg (by simp)

theorem GetLastIndex_eq_some_iff [DecidableEq Leg] (leg : Leg) (footholds : VecFoothold Leg) (i : Nat) :
    GetLastIndex leg footholds = some i ↔ IsLastIndexOf leg footholds i := by
  constructor
  · exact GetLastIndex_some_spec leg footholds i
  · intro hi
    cases hg : GetLastIndex leg footholds with
    | none =>
      obtain ⟨⟨f, hf, hl⟩, _⟩ := hi
      exact absurd hl ((GetLastIndex_eq_none_iff leg footholds).1 hg f (List.getElem?_mem hf))
    | some k =>
      rw [IsLastIndexOf_unique leg footholds k i (GetLastIndex_some_spec leg footholds k hg) hi]

theorem IsLastIndexOf_lt (leg : Leg) (footholds : VecFoothold Leg) (i : Nat)
    (h : IsLastIndexOf leg footholds i) : i < footholds.length := by
  obtain ⟨⟨f, hf, _⟩, _⟩ := h
  by_contra hc
  rw [List.getElem?_eq_none (by omega)] at hf
  exact absurd hf (by simp)

theorem GetLastIndex_isSome_of_mem [DecidableEq Leg] (leg : Leg) (footholds : VecFoothold Leg)
    (h : ∃ f ∈ footholds, f.leg = leg) : ∃ i, GetLastIndex leg footholds = some i := by
  cases hg : GetLastIndex leg footholds with
  | none =>
    obtain ⟨f, hf, hl⟩ := h
    exact absurd hl ((GetLastIndex_eq_none_iff leg footholds).1 hg f hf)
  | some i => exact ⟨i, rfl⟩

theorem set_eq_self_of_getElem? {α : Type} (l : List α) (i : Nat) (a : α)
    (h : l[i]? = some a) : l.set i a = l := by
  apply List.ext_getElem?
  intro n
  rw [List.getElem?_set]
  by_cases hn : i = n
  · subst hn
    simp only [if_true]
    split
    · exact h.symm
    · rename_i hlt
      rw [List.getElem?_eq_none (by omega)]
  · simp [hn]

theorem IsLastIndexOf_set (f : Foothold Leg) (footholds : VecFoothold Leg) (i : Nat)
    (h : IsLastIndexOf f.leg footholds i) : IsLastIndexOf f.leg (footholds.set i f) i := by
  have hlt := IsLastIndexOf_lt f.leg footholds i h
  refine ⟨⟨f, by simp [hlt], rfl⟩, ?_⟩
  intro j g hj hg
  rw [List.getElem?_set_ne (by omega)] at hg
  exact h.2 j g hj hg

theorem UpdateFoothold_of_mem [DecidableEq Leg] (f : Foothold Leg) (footholds : VecFoothold Leg)
    (h : ∃ e ∈ footholds, e.leg = f.leg) :
    ∃ i, IsLastIndexOf f.leg footholds i ∧
      UpdateFoothold f footholds = some (footholds.set i f) := by
  obtain ⟨i, hi⟩ := GetLastIndex_isSome_of_mem f.leg footholds h
  have hspec := GetLastIndex_some_spec f.leg footholds i hi
  have hlt := IsLastIndexOf_lt f.leg footholds i hspec
  refine ⟨i, hspec, ?_⟩
  unfold UpdateFoothold
  rw [(IsInFootholds_iff f.leg footholds).2 h]
  simp [hi, hlt]

theorem UpdateFoothold_of_not_mem [DecidableEq Leg] (f : Foothold Leg)
    (footholds : VecFoothold Leg) (h : ¬ ∃ e ∈ footholds, e.leg = f.leg) :
    UpdateFoothold f footholds = some (footholds ++ [f]) := by
  unfold UpdateFoothold
  have : IsInFootholds f.leg footholds = false := by
    cases hb : IsInFootholds f.leg footholds with
    | false => rfl
    | true => exact absurd ((IsInFootholds_iff f.leg footholds).1 hb) h
  simp [this]

/-- After an upsert the last index of the limb of `f` exists and holds `f`. -/
theorem UpdateFoothold_last [DecidableEq Leg] (f : Foothold Leg) (footholds : VecFoothold Leg) :
    ∃ s i, UpdateFoothold f footholds = some s ∧ GetLastIndex f.leg s = some i ∧
      s[i]? = some f := by
  by_cases h : ∃ e ∈ footholds, e.leg = f.leg
  · obtain ⟨i, hi, hu⟩ := UpdateFoothold_of_mem f footholds h
    have hlt := IsLastIndexOf_lt f.leg footholds i hi
    refine ⟨footholds.set i f, i, hu, ?_, by simp [hlt]⟩
    exact (GetLastIndex_eq_some_iff f.leg _ i).2 (IsLastIndexOf_set f footholds i hi)
  · refine ⟨footholds ++ [f], footholds.length, UpdateFoothold_of_not_mem f footholds h, ?_,
      by simp⟩
    rw [GetLastIndex_concat]
    simp

theorem SetXyLoop_spec (xy : List Vector2d) (n : Nat) :
    ∀ (i : Nat) (footholds : VecFoothold Leg), i + n = footholds.length →
      footholds.length = xy.length →
      ∃ s, SetXyLoop xy n i footholds = some s ∧ s.length = footholds.length ∧
        (∀ j, j < i → s[j]? = footholds[j]?) ∧
        (∀ j f v, i ≤ j → footholds[j]? = some f → xy[j]? = some v →
          s[j]? = some (f.SetXy v)) := by
  induction n with
  | zero =>
    intro i footholds hi _
    refine ⟨footholds, rfl, rfl, fun _ _ => rfl, ?_⟩
    intro j f v hij hf _
    rw [List.getElem?_eq_none (by omega)] at hf
    exact absurd hf (by simp)
  | succ n ih =>
    intro i footholds hi hlen
    have hif : i < footholds.length := by omega
    have hix : i < xy.length := by omega
    obtain ⟨s, hs, hslen, hlow, hhigh⟩ :=
      ih (i + 1) (footholds.set i ((footholds[i]).SetXy (xy[i]))) (by simp; omega) (by simpa using hlen)
    refine ⟨s, ?_, by simpa using hslen, ?_, ?_⟩
    · simp only [SetXyLoop, List.getElem?_eq_getElem hif, List.getElem?_eq_getElem hix]
      exact hs
    · intro j hj
      rw [hlow j (by omega), List.getElem?_set_ne (by omega)]
    · intro j f v hij hf hv
      by_cases hje : j = i
      · subst hje
        rw [List.getElem?_eq_getElem hif] at hf
        rw [List.getElem?_eq_getElem hix] at hv
        cases hf
        cases hv
        rw [hlow j (by omega)]
        simp [hif]
      · apply hhigh j f v (by omega) _ hv
        rw [List.getElem?_set_ne (by omega)]
        exact hf

/-! ### Claims on the foothold sequence -/

/-- C3: `UpdateFoothold` is idempotent: the upsert of `f` always succeeds, and a second upsert
of the same `f` into its result returns that result unchanged, entry for entry. -/
theorem UpdateFoothold_idempotent [DecidableEq Leg] (f : Foothold Leg)
    (footholds : VecFoothold Leg) :
    ∃ s, UpdateFoothold f footholds = some s ∧ UpdateFoothold f s = some s := by
  obtain ⟨s, i, hs, hi, hf⟩ := UpdateFoothold_last f footholds
  refine ⟨s, hs, ?_⟩
  obtain ⟨k, hk, hu⟩ := UpdateFoothold_of_mem f s ⟨f, List.getElem?_mem hf, rfl⟩
  have hki : k = i := by
    have := (GetLastIndex_eq_some_iff f.leg s k).2 hk
    rw [hi] at this
    exact (Option.some.inj this).symm
  rw [hu, hki, set_eq_self_of_getElem? s i f hf]

/-- C4: after `s = UpdateFoothold(f, footholds)` the call `GetLastIndex(f.leg, s)` succeeds
and the entry of `s` at the returned index is `f` (position, limb and sequence id). -/
theorem GetLastIndex_after_UpdateFoothold [DecidableEq Leg] (f : Foothold Leg)
    (footholds : VecFoothold Leg) :
    ∃ s i, UpdateFoothold f footholds = some s ∧ GetLastIndex f.leg s = some i ∧
      i < s.length ∧ s[i]? = some f ∧ GetLastFoothold f.leg s = some f := by
  obtain ⟨s, i, hs, hi, hf⟩ := UpdateFoothold_last f footholds
  refine ⟨s, i, hs, hi, ?_, hf, ?_⟩
  · exact IsLastIndexOf_lt f.leg s i (GetLastIndex_some_spec f.leg s i hi)
  · simp [GetLastFoothold, hi, hf]

/-- C5: if the sequence has an entry with limb `f.leg`, `UpdateFoothold` keeps the length,
puts `f` at the index of the last such entry and leaves every other index as it was; if it
has none, the result is the sequence with `f` appended. -/
theorem UpdateFoothold_frame [DecidableEq Leg] (f : Foothold Leg)
    (footholds : VecFoothold Leg) :
    ((∃ e ∈ footholds, e.leg = f.leg) →
      ∃ i s, UpdateFoothold f footholds = some s ∧
        i < footholds.length ∧
        (∃ e, footholds[i]? = some e ∧ e.leg = f.leg) ∧
        (∀ j e, i < j → footholds[j]? = some e → e.leg ≠ f.leg) ∧
        s.length = footholds.length ∧ s[i]? = some f ∧
        ∀ j, j ≠ i → s[j]? = footholds[j]?) ∧
    ((¬ ∃ e ∈ footholds, e.leg = f.leg) →
      UpdateFoothold f footholds = some (footholds ++ [f])) := by
  refine ⟨fun h => ?_, UpdateFoothold_of_not_mem f footholds⟩
  obtain ⟨i, hi, hu⟩ := UpdateFoothold_of_mem f footholds h
  have hlt := IsLastIndexOf_lt f.leg footholds i hi
  refine ⟨i, footholds.set i f, hu, hlt, hi.1, hi.2, by simp, by simp [hlt], ?_⟩
  intro j hj
  rw [List.getElem?_set_ne (Ne.symm hj)]

/-- C5 at a sequence with limbs 1, 2, 1: a foothold of limb 1 replaces an entry and a
foothold of limb 3 is appended. -/
theorem UpdateFoothold_frame_witness :
    (∃ i s, UpdateFoothold (sampleFoothold 4 0 1) sampleFootholds = some s ∧
        i < sampleFootholds.length ∧
        (∃ e, sampleFootholds[i]? = some e ∧ e.leg = (sampleFoothold 4 0 1).leg) ∧
        (∀ j e, i < j → sampleFootholds[j]? = some e → e.leg ≠ (sampleFoothold 4 0 1).leg) ∧
        s.length = sampleFootholds.length ∧ s[i]? = some (sampleFoothold 4 0 1) ∧
        ∀ j, j ≠ i → s[j]? = sampleFootholds[j]?) ∧
    UpdateFoothold (sampleFoothold 4 0 3) sampleFootholds
      = some (sampleFootholds ++ [sampleFoothold 4 0 3]) :=
  ⟨(UpdateFoothold_frame (sampleFoothold 4 0 1) sampleFootholds).1
      ⟨sampleFoothold 0 (1 / 10) 1, by simp [sampleFootholds], rfl⟩,
    (UpdateFoothold_frame (sampleFoothold 4 0 3) sampleFootholds).2
      (by simp [sampleFootholds, sampleFoothold])⟩

/-- C6: `GetLastIndex` fails exactly when `IsInFootholds` is false for the same limb and
sequence, and `IsInFootholds` (a total boolean function) is true exactly when some entry
has that limb. -/
theorem GetLastIndex_fails_iff_not_IsInFootholds [DecidableEq Leg] (leg : Leg)
    (footholds : VecFoothold Leg) :
    (GetLastIndex leg footholds = none ↔ IsInFootholds leg footholds = false) ∧
      (IsInFootholds leg footholds = true ↔ ∃ f ∈ footholds, f.leg = leg) := by
  refine ⟨?_, IsInFootholds_iff leg footholds⟩
  rw [GetLastIndex_eq_none_iff, ← Bool.not_eq_true, IsInFootholds_iff]
  simp

/-- C7: when the sequence has an entry for the limb, `GetLastIndex` returns an index `i`
inside the sequence whose entry has that limb, and no entry at a greater index has it. -/
theorem GetLastIndex_greatest [DecidableEq Leg] (leg : Leg) (footholds : VecFoothold Leg)
    (h : ∃ f ∈ footholds, f.leg = leg) :
    ∃ i, GetLastIndex leg footholds = some i ∧ i < footholds.length ∧
      (∃ f, footholds[i]? = some f ∧ f.leg = leg ∧ GetLastFoothold leg footholds = some f) ∧
      ∀ j f, i < j → footholds[j]? = some f → f.leg ≠ leg := by
  obtain ⟨i, hi⟩ := GetLastIndex_isSome_of_mem leg footholds h
  have hspec := GetLastIndex_some_spec leg footholds i hi
  obtain ⟨⟨f, hf, hl⟩, h2⟩ := hspec
  refine ⟨i, hi, IsLastIndexOf_lt leg footholds i ⟨⟨f, hf, hl⟩, h2⟩, ⟨f, hf, hl, ?_⟩, h2⟩
  simp [GetLastFoothold, hi, hf]

/-- C7 at limb 1 in a sequence with limbs 1, 2, 1. -/
theorem GetLastIndex_greatest_witness :
    (∃ f ∈ sampleFootholds, f.leg = 1) ∧
    ∃ i, GetLastIndex 1 sampleFootholds = some i ∧ i < sampleFootholds.length ∧
      (∃ f, sampleFootholds[i]? = some f ∧ f.leg = 1 ∧
        GetLastFoothold 1 sampleFootholds = some f) ∧
      ∀ j f, i < j → sampleFootholds[j]? = some f → f.leg ≠ 1 :=
  ⟨⟨sampleFoothold 0 (1 / 10) 1, by simp [sampleFootholds], rfl⟩,
    GetLastIndex_greatest 1 sampleFootholds
      ⟨sampleFoothold 0 (1 / 10) 1, by simp [sampleFootholds], rfl⟩⟩

/-- C8: `SetXy(xy)` changes only the horizontal components: `GetXy` then returns `xy`, and
`z`, the limb and the sequence id are unchanged; the sequence form (whose assertion holds
when the two sizes agree) does this index by index and keeps the length. -/
theorem SetXy_only_horizontal (f : Foothold Leg) (xy : Vector2d) :
    ((f.SetXy xy).GetXy = xy ∧ (f.SetXy xy).p.z = f.p.z ∧ (f.SetXy xy).leg = f.leg ∧
      (f.SetXy xy).id = f.id) ∧
    ∀ (xys : List Vector2d) (footholds : VecFoothold Leg), footholds.length = xys.length →
      ∃ s, SetXyVec xys footholds = some s ∧ s.length = footholds.length ∧
        ∀ (i : Nat) (g : Foothold Leg) (v : Vector2d),
          footholds[i]? = some g → xys[i]? = some v → s[i]? = some (g.SetXy v) := by
  refine ⟨⟨rfl, rfl, rfl, rfl⟩, ?_⟩
  intro xys footholds hlen
  obtain ⟨s, hs, hslen, _, hhigh⟩ :=
    SetXyLoop_spec xys footholds.length 0 footholds (by omega) hlen
  refine ⟨s, by rw [SetXyVec, if_pos hlen, hs], hslen, ?_⟩
  intro i g v hg hv
  exact hhigh i g v (Nat.zero_le i) hg hv

/-- C8 at three footholds and three horizontal positions. -/
theorem SetXy_only_horizontal_witness :
    sampleFootholds.length = sampleXys.length ∧
    ∃ s, SetXyVec sampleXys sampleFootholds = some s ∧ s.length = sampleFootholds.length ∧
      ∀ (i : Nat) (g : Foothold Nat) (v : Vector2d),
        sampleFootholds[i]? = some g → sampleXys[i]? = some v → s[i]? = some (g.SetXy v) :=
  ⟨rfl, (SetXy_only_horizontal (sampleFoothold 0 0 1) { x := 0, y := 0 }).2
    sampleXys sampleFootholds rfl⟩

end FootholdLemmas

/-! ## Properties of the marker builder -/

theorem wrapInt32_of_inRange (n : Int) (h₁ : -(2 : Int) ^ 31 ≤ n) (h₂ : n < (2 : Int) ^ 31) :
    wrapInt32 n = n := by
  unfold wrapInt32
  omega

theorem advanceId_add (a b : Nat) : ∀ i : Int,
    advanceId i (a + b) = advanceId (advanceId i a) b := by
  induction a with
  | zero =>
    intro i
    rw [Nat.zero_add]
    rfl
  | succ a ih =>
    intro i
    rw [Nat.add_right_comm]
    exact ih (wrapInt32 (i + 1))

theorem advanceId_succ (i : Int) (k : Nat) :
    advanceId i (k + 1) = wrapInt32 (advanceId i k + 1) := by
  rw [advanceId_add]
  rfl

/-- While the counter stays in the range of `int`, `k` increments add `k`. -/
theorem advanceId_eq_add (k : Nat) : ∀ i : Int, -(2 : Int) ^ 31 ≤ i →
    i + (k : Int) < (2 : Int) ^ 31 → advanceId i k = i + (k : Int) := by
  induction k with
  | zero =>
    intro i _ _
    simp [advanceId]
  | succ k ih =>
    intro i h₁ h₂
    have hw : wrapInt32 (i + 1) = i + 1 :=
      wrapInt32_of_inRange (i + 1) (by omega) (by push_cast at h₂; omega)
    rw [advanceId, hw, ih (i + 1) (by omega) (by push_cast at h₂; omega)]
    push_cast
    ring

theorem nextId_nil : nextId [] = 0 := rfl

theorem nextId_concat (msg : MarkerArray) (m : Marker) :
    nextId (msg ++ [m]) = wrapInt32 (m.id + 1) := by
  simp [nextId]

theorem IdsFrom_nil (i : Int) : IdsFrom i [] := by
  intro k m h
  simp at h

theorem IdsFrom_singleton (m : Marker) : IdsFrom m.id [m] := by
  intro k x h
  cases k with
  | zero => simp at h; subst h; rfl
  | succ k => simp at h

theorem IdsFrom_append (i : Int) (l₁ l₂ : MarkerArray) (h₁ : IdsFrom i l₁)
    (h₂ : IdsFrom (advanceId i l₁.length) l₂) : IdsFrom i (l₁ ++ l₂) := by
  intro k m h
  by_cases hk : k < l₁.length
  · rw [List.getElem?_append_left hk] at h
    exact h₁ k m h
  · rw [List.getElem?_append_right (by omega)] at h
    have := h₂ (k - l₁.length) m h
    rw [this, ← advanceId_add]
    congr 1
    omega

theorem nextId_append_of_IdsFrom (msg l : MarkerArray) (h : IdsFrom (nextId msg) l) :
    nextId (msg ++ l) = advanceId (nextId msg) l.length := by
  induction l using List.reverseRecOn with
  | nil => simp [advanceId]
  | append_singleton l a _ =>
    rw [← List.append_assoc, nextId_concat]
    have := h l.length a (by simp)
    rw [this, List.length_append, List.length_singleton, advanceId_succ]

theorem IdsFrom_deleteMarkers (ns : String) (i : Int) (n : Nat) :
    IdsFrom i (deleteMarkers ns i n) := by
  intro k m h
  unfold deleteMarkers at h
  rw [List.getElem?_map] at h
  by_cases hk : k < n
  · rw [List.getElem?_range hk] at h
    simp at h
    rw [← h]
  · rw [List.getElem?_eq_none (by simp; omega)] at h
    simp at h

theorem length_deleteMarkers (ns : String) (i : Int) (n : Nat) :
    (deleteMarkers ns i n).length = n := by
  simp [deleteMarkers]

theorem action_deleteMarkers (ns : String) (i : Int) (n : Nat) :
    ∀ m ∈ deleteMarkers ns i n, m.action = Marker.DELETE ∧ m.ns = ns := by
  intro m hm
  unfold deleteMarkers at hm
  rw [List.mem_map] at hm
  obtain ⟨k, _, hk⟩ := hm
  rw [← hk]
  exact ⟨rfl, rfl⟩

theorem deleteMarkers_succ (ns : String) (i : Int) (n : Nat) :
    deleteMarkers ns i (n + 1) =
      ({ id := i, ns := ns, action := Marker.DELETE } : Marker) ::
        deleteMarkers ns (wrapInt32 (i + 1)) n := by
  unfold deleteMarkers
  rw [List.range_succ_eq_map, List.map_cons, List.map_map]
  rfl

/-- The padding loop appends exactly the `bound - j` deletion markers with ids from `i`. -/
theorem PushDeleteMarkers_eq (ns : String) (bound : Nat) :
    ∀ (fuel j : Nat) (i : Int) (msg : MarkerArray), bound - j ≤ fuel →
      PushDeleteMarkers ns bound fuel j i msg = msg ++ deleteMarkers ns i (bound - j) := by
  intro fuel
  induction fuel with
  | zero =>
    intro j i msg h
    have : bound - j = 0 := by omega
    simp [PushDeleteMarkers, this, deleteMarkers]
  | succ fuel ih =>
    intro j i msg h
    by_cases hj : j < bound
    · have hb : bound - j = (bound - (j + 1)) + 1 := by omega
      rw [PushDeleteMarkers, if_pos hj, ih (j + 1) (wrapInt32 (i + 1)) _ (by omega), hb,
        deleteMarkers_succ,
        List.append_assoc]
      rfl
    · have : bound - j = 0 := by omega
      simp [PushDeleteMarkers, hj, this, deleteMarkers]

theorem BuildSupportPolygon_eq (msg : MarkerArray) (stance : ContactVec) (leg_id : EEID) :
    ∃ new, BuildSupportPolygon msg stance leg_id = msg ++ new ∧
      IdsFrom (nextId msg) new ∧
      ∀ m ∈ new, m.action = Marker.MODIFY ∧ m.ns = supp_tr_topic := by
  unfold BuildSupportPolygon
  by_cases h3 : stance.length = 3
  · have h2 : ¬ stance.length = 2 := by omega
    simp only [h3, h2, if_true, if_false]
    refine ⟨[_], rfl, IdsFrom_singleton _, ?_⟩
    intro m hm
    rw [List.mem_singleton] at hm
    subst hm
    exact ⟨rfl, rfl⟩
  · by_cases h2 : stance.length = 2
    · simp only [h3, h2, if_true, if_false]
      refine ⟨[_], rfl, IdsFrom_singleton _, ?_⟩
      intro m hm
      rw [List.mem_singleton] at hm
      subst hm
      exact ⟨rfl, rfl⟩
    · simp only [h3, h2, if_false]
      exact ⟨[], by simp, IdsFrom_nil _, by simp⟩

theorem SupportPolygonStep_eq (acc : MarkerArray × Int) (state : RobotState) :
    ∃ new, (SupportPolygonStep acc state).1 = acc.1 ++ new ∧
      IdsFrom (nextId acc.1) new ∧
      ∀ m ∈ new, m.action = Marker.MODIFY ∧ m.ns = supp_tr_topic := by
  unfold SupportPolygonStep
  by_cases h : state.current_phase ≠ acc.2
  · rw [if_pos h]
    exact BuildSupportPolygon_eq acc.1 state.contacts (swingleg state)
  · rw [if_neg h]
    exact ⟨[], by simp, IdsFrom_nil _, by simp⟩

theorem SupportPolygonStep_foldl (robot_traj : List RobotState) :
    ∀ acc : MarkerArray × Int,
      ∃ real, (robot_traj.foldl SupportPolygonStep acc).1 = acc.1 ++ real ∧
        IdsFrom (nextId acc.1) real ∧
        ∀ m ∈ real, m.action = Marker.MODIFY ∧ m.ns = supp_tr_topic := by
  induction robot_traj with
  | nil =>
    intro acc
    exact ⟨[], by simp, IdsFrom_nil _, by simp⟩
  | cons state rest ih =>
    intro acc
    obtain ⟨new, hnew, hids, hact⟩ := SupportPolygonStep_eq acc state
    obtain ⟨real, hreal, hids2, hact2⟩ := ih (SupportPolygonStep acc state)
    refine ⟨new ++ real, ?_, ?_, ?_⟩
    · rw [List.foldl_cons, hreal, hnew, List.append_assoc]
    · apply IdsFrom_append _ _ _ hids
      rw [← nextId_append_of_IdsFrom acc.1 new hids, ← hnew]
      exact hids2
    · intro m hm
      rcases List.mem_append.1 hm with h | h
      · exact hact m h
      · exact hact2 m h

/-- After the phase walk `prev_phase` is the phase id of the last sample. -/
theorem SupportPolygonWalk_phase (robot_traj : List RobotState) (msg : MarkerArray)
    (last : RobotState) (h : robot_traj.getLast? = some last) :
    (SupportPolygonWalk robot_traj msg).2 = last.current_phase := by
  induction robot_traj using List.reverseRecOn with
  | nil => simp at h
  | append_singleton l a _ =>
    rw [List.getLast?_concat, Option.some.injEq] at h
    subst h
    unfold SupportPolygonWalk
    rw [List.foldl_append, List.foldl_cons, List.foldl_nil]
    generalize List.foldl SupportPolygonStep (msg, -1) l = acc
    unfold SupportPolygonStep
    by_cases hc : a.current_phase ≠ acc.2
    · rw [if_pos hc]
    · rw [if_neg hc]
      exact (not_not.1 hc).symm

theorem toUInt_natCast (n : Nat) (h : n ≤ 30) : toUInt (n : Int) = n := by
  unfold toUInt
  omega

theorem IdsFrom_zero_nextId (l : MarkerArray) (h : IdsFrom 0 l) :
    nextId l = advanceId 0 l.length := by
  have := nextId_append_of_IdsFrom [] l (by simpa [nextId] using h)
  simpa [nextId] using this

theorem advanceId_zero_small (k : Nat) (h : k ≤ 1000) : advanceId 0 k = (k : Int) := by
  rw [advanceId_eq_add k 0 (by norm_num) (by norm_num; omega), zero_add]

theorem PushFootholdMarkers_eq (ns : String) (type : Int) (alpha : ℚ) :
    ∀ (contacts : ContactVec) (i : Int) (msg : MarkerArray),
      ∃ real, PushFootholdMarkers ns type alpha contacts i msg
          = (advanceId i contacts.length, msg ++ real) ∧
        real.length = contacts.length ∧ IdsFrom i real ∧
        ∀ m ∈ real, m.action = Marker.MODIFY ∧ m.ns = ns := by
  intro contacts
  induction contacts with
  | nil =>
    intro i msg
    exact ⟨[], by simp [PushFootholdMarkers, advanceId], rfl, IdsFrom_nil _, by simp⟩
  | cons c rest ih =>
    intro i msg
    obtain ⟨real, hreal, hlen, hids, hact⟩ :=
      ih (wrapInt32 (i + 1)) (msg ++ [FootholdMarker ns type alpha c i])
    refine ⟨FootholdMarker ns type alpha c i :: real, ?_, by simp [hlen], ?_, ?_⟩
    · rw [PushFootholdMarkers, hreal]
      simp only [List.length_cons, List.append_assoc, List.singleton_append, advanceId]
    · exact IdsFrom_append i [FootholdMarker ns type alpha c i] real
        (IdsFrom_singleton (FootholdMarker ns type alpha c i)) hids
    · intro m hm
      rcases List.mem_cons.1 hm with h | h
      · subst h
        exact ⟨rfl, rfl⟩
      · exact hact m h

/-! ### Claims on the discrete channels -/

/-- C1, as stated, fails: for three phases with the ids 0, 1, 2 and contact sets of sizes
3, 2, 3, `AddSupportPolygons` on an empty collection gives 31 markers, 3 real ones followed by
28 deletion markers with the ids 3..30; and for 31 phases of three contacts each it gives 31
real markers. -/
theorem AddSupportPolygons_exceeds_capacity :
    (AddSupportPolygons (samplePhases 0) []).length = 31 ∧
      (AddSupportPolygons (samplePhases 0) []).map (fun m => m.action)
        = List.replicate 3 Marker.MODIFY ++ List.replicate 28 Marker.DELETE ∧
      (AddSupportPolygons (samplePhases 0) []).map (fun m => m.id)
        = (List.range 31).map Int.ofNat ∧
      (AddSupportPolygons (sampleManyPhases 31) []).map (fun m => m.action)
        = List.replicate 31 Marker.MODIFY := by
  decide

/-- C1, amended: when the phase walk over a trajectory emits `r ≤ 30` real markers and the
phase id of the last sample is `r`, `AddSupportPolygons` on an empty collection gives exactly
30 markers: the `r` real `MODIFY` markers followed by `30 - r` `DELETE` markers, with the ids
`0, 1, ..., 29` in order. -/
theorem AddSupportPolygons_capacity (robot_traj : List RobotState) (last : RobotState)
    (hlast : robot_traj.getLast? = some last)
    (hphase : last.current_phase = ((SupportPolygonWalk robot_traj []).1.length : Int))
    (hcap : (SupportPolygonWalk robot_traj []).1.length ≤ 30) :
    ∃ del, AddSupportPolygons robot_traj [] = (SupportPolygonWalk robot_traj []).1 ++ del ∧
      (∀ m ∈ (SupportPolygonWalk robot_traj []).1,
        m.action = Marker.MODIFY ∧ m.ns = supp_tr_topic) ∧
      (∀ m ∈ del, m.action = Marker.DELETE ∧ m.ns = supp_tr_topic) ∧
      del.length = 30 - (SupportPolygonWalk robot_traj []).1.length ∧
      (AddSupportPolygons robot_traj []).length = 30 ∧
      ∀ (k : Nat) (m : Marker), (AddSupportPolygons robot_traj [])[k]? = some m →
        m.id = (k : Int) := by
  obtain ⟨real, hreal, hids, hact⟩ := SupportPolygonStep_foldl robot_traj ([], -1)
  have hw : (SupportPolygonWalk robot_traj []).1 = real := by
    simpa [SupportPolygonWalk] using hreal
  have hids0 : IdsFrom 0 real := by simpa [nextId] using hids
  rw [hw] at hphase hcap ⊢
  have hp : (SupportPolygonWalk robot_traj []).2 = (real.length : Int) := by
    rw [SupportPolygonWalk_phase robot_traj [] last hlast, hphase]
  have hadd : AddSupportPolygons robot_traj []
      = real ++ deleteMarkers supp_tr_topic (real.length : Int) (30 - real.length) := by
    unfold AddSupportPolygons
    simp only [hw, hp]
    rw [toUInt_natCast real.length hcap, IdsFrom_zero_nextId real hids0,
      advanceId_zero_small real.length (by omega)]
    exact PushDeleteMarkers_eq supp_tr_topic 30 30 real.length _ real (by omega)
  refine ⟨deleteMarkers supp_tr_topic (real.length : Int) (30 - real.length), hadd, hact,
    action_deleteMarkers _ _ _, length_deleteMarkers _ _ _, ?_, ?_⟩
  · rw [hadd, List.length_append, length_deleteMarkers]
    omega
  · intro k m hk
    rw [hadd] at hk
    have hdel : IdsFrom (advanceId 0 real.length)
        (deleteMarkers supp_tr_topic (real.length : Int) (30 - real.length)) := by
      rw [advanceId_zero_small real.length (by omega)]
      exact IdsFrom_deleteMarkers supp_tr_topic _ _
    have hk30 : k < 30 := by
      have hlt : k < (real ++ deleteMarkers supp_tr_topic (real.length : Int)
          (30 - real.length)).length := by
        by_contra hc
        rw [List.getElem?_eq_none (by omega)] at hk
        exact absurd hk (by simp)
      rw [List.length_append, length_deleteMarkers] at hlt
      omega
    rw [IdsFrom_append 0 real _ hids0 hdel k m hk, advanceId_zero_small k (by omega)]

/-- The amended C1 at three phases with the ids 1, 2, 3 and contact sets of sizes 3, 2, 3:
3 real markers, then 27 deletion markers, 30 in all. -/
theorem AddSupportPolygons_capacity_witness :
    (SupportPolygonWalk (samplePhases 1) []).1.length = 3 ∧
    ∃ del, AddSupportPolygons (samplePhases 1) []
        = (SupportPolygonWalk (samplePhases 1) []).1 ++ del ∧
      (∀ m ∈ (SupportPolygonWalk (samplePhases 1) []).1,
        m.action = Marker.MODIFY ∧ m.ns = supp_tr_topic) ∧
      (∀ m ∈ del, m.action = Marker.DELETE ∧ m.ns = supp_tr_topic) ∧
      del.length = 30 - (SupportPolygonWalk (samplePhases 1) []).1.length ∧
      (AddSupportPolygons (samplePhases 1) []).length = 30 ∧
      ∀ (k : Nat) (m : Marker), (AddSupportPolygons (samplePhases 1) [])[k]? = some m →
        m.id = (k : Int) :=
  ⟨by decide,
    AddSupportPolygons_capacity (samplePhases 1)
      (sampleState 1 3 [sampleContact 0 .E0, sampleContact 1 .E1, sampleContact 2 .E3])
      rfl (by decide) (by decide)⟩

/-- C2, as stated, fails: a contact list of 81 entries makes the footholds channel append 81
markers, more than the capacity 80. -/
theorem AddFootholds_exceeds_capacity :
    (AddFootholdsContacts [] (List.replicate 81 (sampleContact 0 .E0)) "footholds"
      Marker.SPHERE 1).length = 81 := by
  decide

/-- C2, amended: for a contact list of `n` entries one call of the footholds channel appends
`n` `MODIFY` markers, one per contact, followed by `80 - n` `DELETE` markers (none when
`n ≥ 80`): `max n 80` markers in all, which is exactly 80 whenever `n ≤ 80`. The trajectory
form appends the same for the contacts accumulated by its phase walk. -/
theorem AddFootholds_capacity (msg : MarkerArray) (contacts : ContactVec)
    (rviz_namespace : String) (type : Int) (alpha : ℚ) :
    ∃ real del,
      AddFootholdsContacts msg contacts rviz_namespace type alpha = msg ++ real ++ del ∧
      real.length = contacts.length ∧
      (∀ m ∈ real, m.action = Marker.MODIFY ∧ m.ns = rviz_namespace) ∧
      del.length = 80 - contacts.length ∧
      (∀ m ∈ del, m.action = Marker.DELETE ∧ m.ns = rviz_namespace) ∧
      (real ++ del).length = max contacts.length 80 ∧
      ∀ robot_traj : List RobotState, (FootholdWalk robot_traj).1 = contacts →
        AddFootholds robot_traj msg
          = AddFootholdsContacts msg contacts "footholds" Marker.SPHERE 1 := by
  obtain ⟨real, hreal, hlen, _, hact⟩ :=
    PushFootholdMarkers_eq rviz_namespace type alpha contacts (nextId msg) msg
  refine ⟨real, deleteMarkers rviz_namespace (advanceId (nextId msg) contacts.length)
    (80 - contacts.length), ?_, hlen, hact, length_deleteMarkers _ _ _,
    action_deleteMarkers _ _ _, ?_, ?_⟩
  · unfold AddFootholdsContacts
    simp only [hreal]
    exact PushDeleteMarkers_eq rviz_namespace 80 80 contacts.length _ _ (by omega)
  · rw [List.length_append, length_deleteMarkers, hlen]
    omega
  · intro robot_traj h
    rw [AddFootholds, h]

/-! ### The continuous channel -/

/-- One iteration of the sampling loop whose lookup succeeds. -/
theorem AddTrajectoryReal_step (robot_traj : List RobotState) (ns : String) (dt : Double)
    (marker_size : ℚ) (Get2dValue : StateLin3d → Vector2d) (T traj_dt : Double)
    (fuel : Nat) (t : Double) (i : Int) (msg : MarkerArray) (state : RobotState)
    (ht : Double.lt t T = true) (hs : TrajectoryAt robot_traj traj_dt t = some state) :
    AddTrajectoryReal robot_traj ns dt marker_size Get2dValue T traj_dt (fuel + 1) t i msg
      = AddTrajectoryReal robot_traj ns dt marker_size Get2dValue T traj_dt fuel
          (Double.add t dt) (wrapInt32 (i + 1))
          (msg ++ [TrajectoryMarker ns marker_size Get2dValue state i]) := by
  rw [AddTrajectoryReal, if_pos ht]
  simp only [hs]

/-- One iteration of the sampling loop whose lookup fails: the call throws. -/
theorem AddTrajectoryReal_throw (robot_traj : List RobotState) (ns : String) (dt : Double)
    (marker_size : ℚ) (Get2dValue : StateLin3d → Vector2d) (T traj_dt : Double)
    (fuel : Nat) (t : Double) (i : Int) (msg : MarkerArray)
    (ht : Double.lt t T = true) (hs : (TrajectoryAt robot_traj traj_dt t).isSome = false) :
    AddTrajectoryReal robot_traj ns dt marker_size Get2dValue T traj_dt fuel t i msg
      = none := by
  cases fuel with
  | zero => rfl
  | succ fuel =>
    rw [AddTrajectoryReal, if_pos ht]
    cases h : TrajectoryAt robot_traj traj_dt t with
    | none => rfl
    | some state => rw [h] at hs; exact absurd hs (by simp)

/-- The sampling loop run from time `t`, when its next `m` loop times are below `T` and have
a sample and the one after is not below `T`: it appends `m` real markers with the ids of the
counter and returns the counter advanced `m` times. -/
theorem AddTrajectoryReal_run (robot_traj : List RobotState) (ns : String) (dt : Double)
    (marker_size : ℚ) (Get2dValue : StateLin3d → Vector2d) (T traj_dt : Double) :
    ∀ (m fuel : Nat) (t : Double) (i : Int) (msg : MarkerArray), m < fuel →
      (∀ k : Nat, k < m → Double.lt (sampledTime dt t k) T = true ∧
        (TrajectoryAt robot_traj traj_dt (sampledTime dt t k)).isSome = true) →
      Double.lt (sampledTime dt t m) T = false →
      ∃ real, AddTrajectoryReal robot_traj ns dt marker_size Get2dValue T traj_dt fuel t i msg
            = some (advanceId i m, msg ++ real) ∧
        real.length = m ∧ IdsFrom i real ∧
        ∀ x ∈ real, x.action = Marker.MODIFY ∧ x.ns = ns := by
  intro m
  induction m with
  | zero =>
    intro fuel t i msg hf _ hend
    obtain ⟨fuel, rfl⟩ : ∃ f, fuel = f + 1 := ⟨fuel - 1, by omega⟩
    have hnot : ¬ (Double.lt t T = true) := by
      rw [show sampledTime dt t 0 = t from rfl] at hend
      simp [hend]
    exact ⟨[], by simp [AddTrajectoryReal, hnot, advanceId], rfl, IdsFrom_nil _, by simp⟩
  | succ m ih =>
    intro fuel t i msg hf hlow hend
    obtain ⟨fuel, rfl⟩ : ∃ f, fuel = f + 1 := ⟨fuel - 1, by omega⟩
    obtain ⟨ht, hsome⟩ := hlow 0 (by omega)
    rw [show sampledTime dt t 0 = t from rfl] at ht hsome
    obtain ⟨state, hstate⟩ := Option.isSome_iff_exists.1 hsome
    obtain ⟨real, hreal, hlen, hids, hact⟩ :=
      ih fuel (Double.add t dt) (wrapInt32 (i + 1))
        (msg ++ [TrajectoryMarker ns marker_size Get2dValue state i]) (by omega)
        (fun k hk => hlow (k + 1) (by omega)) hend
    refine ⟨TrajectoryMarker ns marker_size Get2dValue state i :: real, ?_,
      by simp [hlen], ?_, ?_⟩
    · rw [AddTrajectoryReal_step robot_traj ns dt marker_size Get2dValue T traj_dt fuel t i
        msg state ht hstate, hreal]
      simp only [List.append_assoc, List.singleton_append, advanceId]
    · exact IdsFrom_append i [_] real
        (IdsFrom_singleton (TrajectoryMarker ns marker_size Get2dValue state i)) hids
    · intro x hx
      rcases List.mem_cons.1 hx with h | h
      · subst h
        exact ⟨rfl, rfl⟩
      · exact hact x h

/-- The sampling loop throws, whatever the fuel, when after `m` successful iterations the
next loop time is still below `T` and has no sample. -/
theorem AddTrajectoryReal_out_of_range (robot_traj : List RobotState) (ns : String)
    (dt : Double) (marker_size : ℚ) (Get2dValue : StateLin3d → Vector2d)
    (T traj_dt : Double) :
    ∀ (m : Nat) (t : Double),
      (∀ k : Nat, k < m → Double.lt (sampledTime dt t k) T = true ∧
        (TrajectoryAt robot_traj traj_dt (sampledTime dt t k)).isSome = true) →
      Double.lt (sampledTime dt t m) T = true →
      (TrajectoryAt robot_traj traj_dt (sampledTime dt t m)).isSome = false →
      ∀ (fuel : Nat) (i : Int) (msg : MarkerArray),
        AddTrajectoryReal robot_traj ns dt marker_size Get2dValue T traj_dt fuel t i msg
          = none := by
  intro m
  induction m with
  | zero =>
    intro t _ ht hs fuel i msg
    exact AddTrajectoryReal_throw robot_traj ns dt marker_size Get2dValue T traj_dt fuel t i
      msg ht hs
  | succ m ih =>
    intro t hlow ht hs fuel i msg
    cases fuel with
    | zero => rfl
    | succ fuel =>
      obtain ⟨ht0, hsome⟩ := hlow 0 (by omega)
      rw [show sampledTime dt t 0 = t from rfl] at ht0 hsome
      obtain ⟨state, hstate⟩ := Option.isSome_iff_exists.1 hsome
      rw [AddTrajectoryReal_step robot_traj ns dt marker_size Get2dValue T traj_dt fuel t i
        msg state ht0 hstate]
      exact ih (Double.add t dt) (fun k hk => hlow (k + 1) (by omega)) ht hs fuel _ _

/-- The padding loop run from time `t`, when its next `m` loop times are below the horizon
and the one after is not: it appends the `m` deletion markers with the ids of the counter. -/
theorem AddTrajectoryDelete_run (ns : String) (dt : Double) :
    ∀ (m fuel : Nat) (t : Double) (i : Int) (msg : MarkerArray), m < fuel →
      (∀ k : Nat, k < m → Double.lt (sampledTime dt t k) (Double.finite 10) = true) →
      Double.lt (sampledTime dt t m) (Double.finite 10) = false →
      AddTrajectoryDelete ns dt fuel t i msg = some (msg ++ deleteMarkers ns i m) := by
  intro m
  induction m with
  | zero =>
    intro fuel t i msg hf _ hend
    obtain ⟨fuel, rfl⟩ : ∃ f, fuel = f + 1 := ⟨fuel - 1, by omega⟩
    have hnot : ¬ (Double.lt t (Double.finite 10) = true) := by
      rw [show sampledTime dt t 0 = t from rfl] at hend
      simp [hend]
    simp [AddTrajectoryDelete, hnot, deleteMarkers]
  | succ m ih =>
    intro fuel t i msg hf hlow hend
    obtain ⟨fuel, rfl⟩ : ∃ f, fuel = f + 1 := ⟨fuel - 1, by omega⟩
    have ht : Double.lt t (Double.finite 10) = true := hlow 0 (by omega)
    rw [AddTrajectoryDelete, if_pos ht,
      ih fuel (Double.add t dt) (wrapInt32 (i + 1)) _ (by omega)
        (fun k hk => hlow (k + 1) (by omega)) hend,
      deleteMarkers_succ, List.append_assoc]
    rfl

/-- The whole of `AddTrajectory` when its sampling loop makes `a` iterations with successful
lookups and its padding loop makes `b` iterations. -/
theorem AddTrajectory_run (fuel : Nat) (robot_traj : List RobotState) (msg : MarkerArray)
    (ns : String) (dt : Double) (marker_size : ℚ) (Get2dValue : StateLin3d → Vector2d)
    (T : Double) (a b : Nat) (hD : Duration robot_traj = some T)
    (ha : RealSamples robot_traj dt T a) (hb : PaddingSamples dt T b)
    (hfa : a < fuel) (hfb : b < fuel) :
    ∃ real del,
      AddTrajectory fuel robot_traj msg ns dt marker_size Get2dValue
        = some (msg ++ real ++ del) ∧
      real.length = a ∧ del.length = b ∧
      (∀ m ∈ real, m.action = Marker.MODIFY ∧ m.ns = ns) ∧
      (∀ m ∈ del, m.action = Marker.DELETE ∧ m.ns = ns) ∧
      IdsFrom (nextId msg) (real ++ del) := by
  obtain ⟨real, hreal, hlen, hids, hact⟩ :=
    AddTrajectoryReal_run robot_traj ns dt marker_size Get2dValue T (TrajDt robot_traj T)
      a fuel (Double.finite 0) (nextId msg) msg hfa ha.1 ha.2
  refine ⟨real, deleteMarkers ns (advanceId (nextId msg) a) b, ?_, hlen,
    length_deleteMarkers _ _ _, hact, action_deleteMarkers _ _ _, ?_⟩
  · unfold AddTrajectory
    simp only [hD, hreal]
    exact AddTrajectoryDelete_run ns dt b fuel T _ _ hfb hb.1 hb.2
  · apply IdsFrom_append _ _ _ hids
    rw [hlen]
    exact IdsFrom_deleteMarkers _ _ _

/-- The number of sample times `k * dt` below `x` is `ceil (x / dt)`. -/
theorem ceil_count (x dt : ℚ) (hdt : 0 < dt) :
    (∀ k : Nat, k < ⌈x / dt⌉₊ → (k : ℚ) * dt < x) ∧ x ≤ (⌈x / dt⌉₊ : ℚ) * dt := by
  constructor
  · intro k hk
    have := Nat.lt_ceil.1 hk
    rwa [lt_div_iff₀ hdt] at this
  · have := Nat.le_ceil (x / dt)
    rwa [div_le_iff₀ hdt] at this

/-! ### Claims on the continuous channel -/

/-- C9 on the code, at the claim's own witness `T = 1.0`, `dt = 0.1` (two samples, at the
times 0 and 1, empty collection): after ten additions of `0.1` the loop time is
`0.9999999999999999`, still below `T`, so the sampling loop makes an 11th iteration and the
call gives 11 real markers (ids 0..10) followed by 91 deletion markers (ids 11..101), not
10 and 90. -/
theorem AddTrajectory_rounding_extra_marker :
    Duration sampleTwoTimes = some (Double.finite 1) ∧
    sampledTime (Double.ofRat (1 / 10)) (Double.finite 0) 10
      = Double.finite (9007199254740991 / 9007199254740992) ∧
    (AddTrajectory 200 sampleTwoTimes [] "zmp" (Double.ofRat (1 / 10)) (11 / 1000)
        (fun base => { x := base.p.x, y := base.p.y })).map
        (fun out => out.map (fun m => (m.id, m.action)))
      = some ((List.range 11).map (fun (k : Nat) => ((k : Int), Marker.MODIFY)) ++
          (List.range 91).map (fun (k : Nat) => ((k : Int) + 11, Marker.DELETE))) := by
  decide!

/-- C10, as stated, fails: with `dt = 1` a trajectory of duration `1` gets 10 markers and a
trajectory of duration `1/2` gets 11. -/
theorem AddTrajectory_total_depends_on_duration :
    Duration (samplePhases 0) = some (Double.finite 1) ∧
    Duration ((samplePhases 0).take 2) = some (Double.finite (1 / 2)) ∧
    (AddTrajectory 20 (samplePhases 0) [] "body" (Double.finite 1) (11 / 1000)
        (fun base => { x := base.p.x, y := base.p.y })).map List.length = some 10 ∧
    (AddTrajectory 20 ((samplePhases 0).take 2) [] "body" (Double.finite 1) (11 / 1000)
        (fun base => { x := base.p.x, y := base.p.y })).map List.length = some 11 := by
  decide!

/-- C10, amended: for a sampling interval `dt > 0`, the horizon 10 and a duration
`0 < T ≤ 10` whose loop times are computed without rounding (the `k`-th time of the sampling
loop is `k * dt`, that of the padding loop is `T + k * dt`) and whose lookups all succeed,
`AddTrajectory` appends `ceil(T/dt) + ceil((10-T)/dt)` markers in all; this total is
`ceil(10/dt)` or `ceil(10/dt) + 1`, and it is `ceil(10/dt)`, whatever `T`, when `T` is a
whole multiple of `dt`. -/
theorem AddTrajectory_total_count (fuel : Nat) (robot_traj : List RobotState)
    (msg : MarkerArray) (ns : String) (dt : Double) (marker_size : ℚ)
    (Get2dValue : StateLin3d → Vector2d) (T d : ℚ)
    (hD : Duration robot_traj = some (Double.finite T)) (hT : 0 < T) (hT10 : T ≤ 10)
    (hd : 0 < d)
    (hexact₁ : ∀ k : Nat, k ≤ ⌈T / d⌉₊ →
      sampledTime dt (Double.finite 0) k = Double.finite ((k : ℚ) * d))
    (hlookup : ∀ k : Nat, k < ⌈T / d⌉₊ →
      (TrajectoryAt robot_traj (TrajDt robot_traj (Double.finite T))
        (Double.finite ((k : ℚ) * d))).isSome = true)
    (hexact₂ : ∀ k : Nat, k ≤ ⌈(10 - T) / d⌉₊ →
      sampledTime dt (Double.finite T) k = Double.finite (T + (k : ℚ) * d))
    (hf1 : ⌈T / d⌉₊ < fuel) (hf2 : ⌈(10 - T) / d⌉₊ < fuel) :
    ∃ out,
      AddTrajectory fuel robot_traj msg ns dt marker_size Get2dValue = some (msg ++ out) ∧
      out.length = ⌈T / d⌉₊ + ⌈(10 - T) / d⌉₊ ∧
      ⌈10 / d⌉₊ ≤ out.length ∧ out.length ≤ ⌈10 / d⌉₊ + 1 ∧
      ∀ k : Nat, T = (k : ℚ) * d → out.length = ⌈10 / d⌉₊ := by
  obtain ⟨ha1, ha2⟩ := ceil_count T d hd
  obtain ⟨hb1, hb2⟩ := ceil_count (10 - T) d hd
  have hreal : RealSamples robot_traj dt (Double.finite T) ⌈T / d⌉₊ := by
    refine ⟨fun k hk => ⟨?_, ?_⟩, ?_⟩
    · rw [hexact₁ k hk.le]
      simpa [Double.lt] using ha1 k hk
    · rw [hexact₁ k hk.le]
      exact hlookup k hk
    · rw [hexact₁ _ le_rfl]
      simpa [Double.lt] using ha2
  have hpad : PaddingSamples dt (Double.finite T) ⌈(10 - T) / d⌉₊ := by
    refine ⟨fun k hk => ?_, ?_⟩
    · rw [hexact₂ k hk.le]
      have := hb1 k hk
      simp only [Double.lt, decide_eq_true_eq]
      linarith
    · rw [hexact₂ _ le_rfl]
      simp only [Double.lt, decide_eq_false_iff_not, not_lt]
      linarith
  obtain ⟨real, del, h, hr, hdl, _⟩ :=
    AddTrajectory_run fuel robot_traj msg ns dt marker_size Get2dValue (Double.finite T)
      ⌈T / d⌉₊ ⌈(10 - T) / d⌉₊ hD hreal hpad hf1 hf2
  have hlen : (real ++ del).length = ⌈T / d⌉₊ + ⌈(10 - T) / d⌉₊ := by
    rw [List.length_append, hr, hdl]
  have hsum : T / d + (10 - T) / d = 10 / d := by
    field_simp
  have ha0 : 0 ≤ T / d := div_nonneg hT.le hd.le
  have hb0 : 0 ≤ (10 - T) / d := div_nonneg (by linarith) hd.le
  refine ⟨real ++ del, by rw [h, List.append_assoc], hlen, ?_, ?_, ?_⟩
  · rw [hlen, ← hsum]
    exact Nat.ceil_add_le _ _
  · rw [hlen]
    have h1 := Nat.ceil_lt_add_one ha0
    have h2 := Nat.ceil_lt_add_one hb0
    have h3 := Nat.le_ceil (10 / d)
    have : ((⌈T / d⌉₊ + ⌈(10 - T) / d⌉₊ : Nat) : ℚ) < ((⌈10 / d⌉₊ + 2 : Nat) : ℚ) := by
      push_cast
      linarith
    have := Nat.cast_lt.1 this
    omega
  · intro k hk
    rw [hlen]
    have hak : T / d = (k : ℚ) := by
      rw [hk]
      field_simp
    have hbk : 10 / d = (10 - T) / d + (k : ℚ) := by
      rw [← hak]
      linarith
    rw [hbk, Nat.ceil_add_nat hb0, hak, Nat.ceil_natCast]
    omega

/-- The amended C10 at `dt = 1` and the duration `1/2`, which is not a multiple of `dt`. -/
theorem AddTrajectory_total_count_witness :
    Duration ((samplePhases 0).take 2) = some (Double.finite (1 / 2)) ∧
    ∃ out,
      AddTrajectory 20 ((samplePhases 0).take 2) [] "body" (Double.finite 1) (11 / 1000)
          (fun base => { x := base.p.x, y := base.p.y }) = some ([] ++ out) ∧
      out.length = ⌈(1 / 2 : ℚ) / 1⌉₊ + ⌈((10 : ℚ) - 1 / 2) / 1⌉₊ ∧
      ⌈(10 : ℚ) / 1⌉₊ ≤ out.length ∧ out.length ≤ ⌈(10 : ℚ) / 1⌉₊ + 1 ∧
      ∀ k : Nat, (1 / 2 : ℚ) = (k : ℚ) * 1 → out.length = ⌈(10 : ℚ) / 1⌉₊ := by
  have hD : Duration ((samplePhases 0).take 2) = some (Double.finite (1 / 2)) := by
    decide!
  have h1 : ⌈(1 / 2 : ℚ) / 1⌉₊ = 1 := by
    rw [Nat.ceil_eq_iff (by norm_num)]
    norm_num
  have h2 : ⌈((10 : ℚ) - 1 / 2) / 1⌉₊ = 10 := by
    rw [Nat.ceil_eq_iff (by norm_num)]
    norm_num
  have e1 : ∀ k : Nat, k < 2 →
      sampledTime (Double.finite 1) (Double.finite 0) k = Double.finite ((k : ℚ) * 1) := by
    decide!
  have e2 : ∀ k : Nat, k < 1 →
      (TrajectoryAt ((samplePhases 0).take 2)
        (TrajDt ((samplePhases 0).take 2) (Double.finite (1 / 2)))
        (Double.finite ((k : ℚ) * 1))).isSome = true := by
    decide!
  have e3 : ∀ k : Nat, k < 11 →
      sampledTime (Double.finite 1) (Double.finite (1 / 2)) k
        = Double.finite (1 / 2 + (k : ℚ) * 1) := by
    decide!
  exact ⟨hD, AddTrajectory_total_count 20 ((samplePhases 0).take 2) [] "body"
    (Double.finite 1) (11 / 1000) (fun base => { x := base.p.x, y := base.p.y }) (1 / 2) 1
    hD (by norm_num) (by norm_num) (by norm_num)
    (fun k hk => e1 k (by rw [h1] at hk; omega))
    (fun k hk => e2 k (by rw [h1] at hk; omega))
    (fun k hk => e3 k (by rw [h2] at hk; omega))
    (by rw [h1]; norm_num) (by rw [h2]; norm_num)⟩

/-- C20 on the code, for three samples at the times 0, 0.5 and 1 (`T = 1.0`) and
`dt = 0.1`: the 11th loop time `0.9999999999999999` is below `T`, its lookup index
`floor(t / traj_dt)` is 3, the number of samples, and `robot_traj_.at(3)` throws: the call
returns for no amount of fuel. -/
theorem AddTrajectory_index_out_of_range :
    (samplePhases 0).length = 3 ∧
    Duration (samplePhases 0) = some (Double.finite 1) ∧
    sampledTime (Double.ofRat (1 / 10)) (Double.finite 0) 10
      = Double.finite (9007199254740991 / 9007199254740992) ∧
    Double.lt (Double.finite (9007199254740991 / 9007199254740992)) (Double.finite 1)
      = true ∧
    Double.toSize (Double.floor (Double.div
        (Double.finite (9007199254740991 / 9007199254740992))
        (TrajDt (samplePhases 0) (Double.finite 1)))) = some 3 ∧
    ∀ fuel : Nat,
      AddTrajectory fuel (samplePhases 0) [] "zmp" (Double.ofRat (1 / 10)) (11 / 1000)
        (fun base => { x := base.p.x, y := base.p.y }) = none := by
  have hD : Duration (samplePhases 0) = some (Double.finite 1) := by decide!
  refine ⟨rfl, hD, by decide!, by decide!, by decide!, ?_⟩
  intro fuel
  have h1 : ∀ k : Nat, k < 10 →
      Double.lt (sampledTime (Double.ofRat (1 / 10)) (Double.finite 0) k) (Double.finite 1)
        = true ∧
      (TrajectoryAt (samplePhases 0) (TrajDt (samplePhases 0) (Double.finite 1))
        (sampledTime (Double.ofRat (1 / 10)) (Double.finite 0) k)).isSome = true := by
    decide!
  have h2 : Double.lt (sampledTime (Double.ofRat (1 / 10)) (Double.finite 0) 10)
      (Double.finite 1) = true := by decide!
  have h3 : (TrajectoryAt (samplePhases 0) (TrajDt (samplePhases 0) (Double.finite 1))
      (sampledTime (Double.ofRat (1 / 10)) (Double.finite 0) 10)).isSome = false := by
    decide!
  unfold AddTrajectory
  simp only [hD]
  rw [AddTrajectoryReal_out_of_range (samplePhases 0) "zmp" (Double.ofRat (1 / 10))
    (11 / 1000) (fun base => { x := base.p.x, y := base.p.y }) (Double.finite 1)
    (TrajDt (samplePhases 0) (Double.finite 1)) 10 (Double.finite 0) h1 h2 h3 fuel]

/-! ### Identities of the footholds channel -/

theorem wrapInt32_range (n : Int) :
    -(2 : Int) ^ 31 ≤ wrapInt32 n ∧ wrapInt32 n < (2 : Int) ^ 31 := by
  unfold wrapInt32
  omega

theorem nextId_range (msg : MarkerArray) :
    -(2 : Int) ^ 31 ≤ nextId msg ∧ nextId msg < (2 : Int) ^ 31 := by
  unfold nextId
  cases msg.getLast? with
  | none => norm_num
  | some m => exact wrapInt32_range _

/-- The footholds channel appends the real markers and the padding, with the ids of a
counter that starts at the next free id of the collection. -/
theorem AddFootholdsContacts_eq (msg : MarkerArray) (contacts : ContactVec) (ns : String)
    (type : Int) (alpha : ℚ) :
    ∃ out, AddFootholdsContacts msg contacts ns type alpha = msg ++ out ∧
      out.length = max contacts.length 80 ∧ IdsFrom (nextId msg) out := by
  obtain ⟨real, hreal, hlen, hids, _⟩ :=
    PushFootholdMarkers_eq ns type alpha contacts (nextId msg) msg
  refine ⟨real ++ deleteMarkers ns (advanceId (nextId msg) contacts.length)
    (80 - contacts.length), ?_, ?_, ?_⟩
  · unfold AddFootholdsContacts
    simp only [hreal]
    rw [PushDeleteMarkers_eq ns 80 80 contacts.length _ _ (by omega), List.append_assoc]
  · rw [List.length_append, length_deleteMarkers, hlen]
    omega
  · apply IdsFrom_append _ _ _ hids
    rw [hlen]
    exact IdsFrom_deleteMarkers _ _ _

/-- C11, as stated, fails: appended to a collection whose last marker has the id 5, the
markers of one `AddFootholds` call carry the ids 6, 7, ..., 85 and not 0, 1, 2, .... -/
theorem AddFootholds_ids_continue :
    ((AddFootholdsContacts [{ id := 5 }] [sampleContact 0 .E0] "footholds" Marker.SPHERE
        1).drop 1).map (fun m => m.id)
      = (List.range 80).map (fun (k : Nat) => (k : Int) + 6) := by
  decide

/-- C11, amended: the markers emitted by one `AddFootholds` call carry consecutive ids in
emission order (real markers first, then the padding), each one more than the previous and
none repeated, starting at the id after that of the last marker of the collection they are
appended to, and at 0 for an empty collection, as long as these ids stay in the range of
`int`: the first id plus the number of emitted markers is at most `2^31`. -/
theorem AddFootholds_ids (msg : MarkerArray) (contacts : ContactVec) (ns : String)
    (type : Int) (alpha : ℚ)
    (hrange : nextId msg + ((max contacts.length 80 : Nat) : Int) ≤ (2 : Int) ^ 31) :
    (∃ out, AddFootholdsContacts msg contacts ns type alpha = msg ++ out ∧
      out.length = max contacts.length 80 ∧
      (∀ (k : Nat) (m : Marker), out[k]? = some m → m.id = nextId msg + (k : Int)) ∧
      (∀ (k : Nat) (a b : Marker), out[k]? = some a → out[k + 1]? = some b →
        b.id = a.id + 1) ∧
      (∀ (j k : Nat) (a b : Marker), out[j]? = some a → out[k]? = some b → a.id = b.id →
        j = k)) ∧
    nextId ([] : MarkerArray) = 0 ∧
    ∀ (pre : MarkerArray) (m₀ : Marker), msg = pre ++ [m₀] →
      -(2 : Int) ^ 31 ≤ m₀.id → m₀.id + 1 < (2 : Int) ^ 31 → nextId msg = m₀.id + 1 := by
  refine ⟨?_, rfl, ?_⟩
  · obtain ⟨out, hout, hlen, hids⟩ := AddFootholdsContacts_eq msg contacts ns type alpha
    have hid : ∀ (k : Nat) (m : Marker), out[k]? = some m → m.id = nextId msg + (k : Int) := by
      intro k m hk
      have hlt : k < out.length := by
        by_contra hc
        rw [List.getElem?_eq_none (by omega)] at hk
        exact absurd hk (by simp)
      rw [hids k m hk]
      apply advanceId_eq_add k (nextId msg) (nextId_range msg).1
      rw [hlen] at hlt
      have : ((k : Nat) : Int) < ((max contacts.length 80 : Nat) : Int) := by
        exact_mod_cast hlt
      omega
    refine ⟨out, hout, hlen, hid, ?_, ?_⟩
    · intro k a b ha hb
      rw [hid k a ha, hid (k + 1) b hb]
      push_cast
      ring
    · intro j k a b ha hb hab
      have h1 := hid j a ha
      have h2 := hid k b hb
      omega
  · intro pre m₀ hmsg h₁ h₂
    rw [hmsg, nextId_concat]
    exact wrapInt32_of_inRange _ (by omega) h₂

/-- The amended C11 at a collection whose last marker has the id 5 and one contact. -/
theorem AddFootholds_ids_witness :
    nextId [{ id := 5 }] + ((max [sampleContact 0 .E0].length 80 : Nat) : Int)
      ≤ (2 : Int) ^ 31 ∧
    ∃ out, AddFootholdsContacts [{ id := 5 }] [sampleContact 0 .E0] "footholds"
        Marker.SPHERE 1 = [{ id := 5 }] ++ out ∧
      out.length = max [sampleContact 0 .E0].length 80 ∧
      (∀ (k : Nat) (m : Marker), out[k]? = some m →
        m.id = nextId [{ id := 5 }] + (k : Int)) ∧
      (∀ (k : Nat) (a b : Marker), out[k]? = some a → out[k + 1]? = some b →
        b.id = a.id + 1) ∧
      (∀ (j k : Nat) (a b : Marker), out[j]? = some a → out[k]? = some b → a.id = b.id →
        j = k) :=
  ⟨by decide,
    (AddFootholds_ids [{ id := 5 }] [sampleContact 0 .E0] "footholds" Marker.SPHERE 1
      (by decide)).1⟩

/-! ### The phase walk -/

theorem SupportPolygonStep_foldl_PhaseStarts (robot_traj : List RobotState) :
    ∀ acc : MarkerArray × Int,
      (robot_traj.foldl SupportPolygonStep acc).1
        = (PhaseStartsFrom acc.2 robot_traj).foldl
            (fun m s => BuildSupportPolygon m s.contacts (swingleg s)) acc.1 := by
  induction robot_traj with
  | nil => intro acc; rfl
  | cons state rest ih =>
    intro acc
    rw [List.foldl_cons, ih, PhaseStartsFrom]
    unfold SupportPolygonStep
    by_cases h : state.current_phase ≠ acc.2
    · simp only [if_pos h, List.foldl_cons]
    · simp only [if_neg h]

theorem FootholdStep_foldl_PhaseStarts (robot_traj : List RobotState) :
    ∀ acc : ContactVec × Int,
      (robot_traj.foldl FootholdStep acc).1
        = (PhaseStartsFrom acc.2 robot_traj).foldl (fun cs s => cs ++ s.contacts) acc.1 := by
  induction robot_traj with
  | nil => intro acc; rfl
  | cons state rest ih =>
    intro acc
    rw [List.foldl_cons, ih, PhaseStartsFrom]
    unfold FootholdStep
    by_cases h : state.current_phase ≠ acc.2
    · simp only [if_pos h, List.foldl_cons]
    · simp only [if_neg h]

theorem PhaseStartsFrom_constant (p : Int) (robot_traj : List RobotState)
    (h : ∀ s ∈ robot_traj, s.current_phase = p) : PhaseStartsFrom p robot_traj = [] := by
  induction robot_traj with
  | nil => rfl
  | cons state rest ih =>
    have hs : state.current_phase = p := h state (List.mem_cons_self _ _)
    rw [PhaseStartsFrom, if_neg (not_not.2 hs)]
    exact ih (fun s hm => h s (List.mem_cons_of_mem _ hm))

/-- The sentinel of the phase walk: a sample whose phase id is `-1`, the initial value of
`prev_phase`, is not taken for a phase start. -/
theorem PhaseStarts_sentinel_phase :
    (PhaseStarts [sampleState 0 (-1)
        [sampleContact 0 .E0, sampleContact 1 .E1, sampleContact 2 .E2]]).length = 0 ∧
    (FootholdWalk [sampleState 0 (-1)
        [sampleContact 0 .E0, sampleContact 1 .E1, sampleContact 2 .E2]]).1 = [] ∧
    (SupportPolygonWalk [sampleState 0 (-1)
        [sampleContact 0 .E0, sampleContact 1 .E1, sampleContact 2 .E2]] []).1 = [] := by
  decide

/-- C12: for a non-empty trajectory whose samples all carry the same phase id `p` (a phase
id of the planner, which is never the sentinel `-1` that `prev_phase` starts with), the phase
walk selects exactly one start-of-phase representative, the first sample: the contacts
accumulated by `AddFootholds(msg)` are the first sample's contact set and `AddSupportPolygons`
invokes `BuildSupportPolygon` once, on the first sample. -/
theorem PhaseStarts_constant_phase (first : RobotState) (rest : List RobotState) (p : Int)
    (hall : ∀ s ∈ first :: rest, s.current_phase = p) (hp : p ≠ -1) :
    PhaseStarts (first :: rest) = [first] ∧
    (FootholdWalk (first :: rest)).1 = first.contacts ∧
    (∀ msg : MarkerArray,
      AddFootholds (first :: rest) msg
        = AddFootholdsContacts msg first.contacts "footholds" Marker.SPHERE 1) ∧
    ∀ msg : MarkerArray,
      (SupportPolygonWalk (first :: rest) msg).1
        = (PhaseStarts (first :: rest)).foldl
            (fun m s => BuildSupportPolygon m s.contacts (swingleg s)) msg ∧
      (SupportPolygonWalk (first :: rest) msg).1
        = BuildSupportPolygon msg first.contacts (swingleg first) := by
  have hf : first.current_phase = p := hall first (List.mem_cons_self _ _)
  have hstarts : PhaseStarts (first :: rest) = [first] := by
    rw [PhaseStarts, PhaseStartsFrom, if_pos (by rw [hf]; exact hp), hf,
      PhaseStartsFrom_constant p rest (fun s hm => hall s (List.mem_cons_of_mem _ hm))]
  have hwalk : (FootholdWalk (first :: rest)).1 = first.contacts := by
    have := FootholdStep_foldl_PhaseStarts (first :: rest) ([], -1)
    rw [FootholdWalk, this]
    change List.foldl _ [] (PhaseStarts (first :: rest)) = _
    rw [hstarts]
    simp
  refine ⟨hstarts, hwalk, ?_, ?_⟩
  · intro msg
    rw [AddFootholds, hwalk]
  · intro msg
    have := SupportPolygonStep_foldl_PhaseStarts (first :: rest) (msg, -1)
    have h1 : (SupportPolygonWalk (first :: rest) msg).1
        = (PhaseStarts (first :: rest)).foldl
            (fun m s => BuildSupportPolygon m s.contacts (swingleg s)) msg := this
    refine ⟨h1, ?_⟩
    rw [h1, hstarts]
    rfl

/-- C12 at two samples of phase `0`. -/
theorem PhaseStarts_constant_phase_witness :
    PhaseStarts [sampleState 0 0 [sampleContact 0 .E0, sampleContact 1 .E1],
        sampleState 1 0 [sampleContact 0 .E0]]
      = [sampleState 0 0 [sampleContact 0 .E0, sampleContact 1 .E1]] ∧
    (FootholdWalk [sampleState 0 0 [sampleContact 0 .E0, sampleContact 1 .E1],
        sampleState 1 0 [sampleContact 0 .E0]]).1
      = (sampleState 0 0 [sampleContact 0 .E0, sampleContact 1 .E1]).contacts :=
  have h := PhaseStarts_constant_phase
    (sampleState 0 0 [sampleContact 0 .E0, sampleContact 1 .E1])
    [sampleState 1 0 [sampleContact 0 .E0]] 0
    (by
      intro s hs
      simp only [List.mem_cons, List.mem_singleton, List.not_mem_nil, or_false] at hs
      rcases hs with h | h <;> rw [h] <;> rfl)
    (by decide)
  ⟨h.1, h.2.1⟩

/-! ### Support polygons, swing limb, single point and colours -/

/-- A fold that overwrites its state at every element satisfying `c` ends with the value of
the last such element, or with the initial state when there is none. -/
theorem foldl_last_wins {α β : Type} (c : α → Bool) (g : α → β) (init : β) (l : List α) :
    l.foldl (fun acc a => if c a then g a else acc) init
      = (((l.filter c).getLast?).map g).getD init := by
  induction l using List.reverseRecOn with
  | nil => rfl
  | append_singleton l a ih =>
    rw [List.foldl_append, List.foldl_cons, List.foldl_nil, ih, List.filter_append]
    by_cases h : c a = true
    · simp [h, List.getLast?_concat]
    · simp [h]

theorem swingleg_eq_getLast (state : RobotState) :
    swingleg state = ((swingLimbs state).getLast?).getD EndeffectorID.E0 := by
  have := foldl_last_wins (fun ee => !state.contact_state ee) (fun ee => ee)
    EndeffectorID.E0 state.endeffectors
  simpa [swingleg, swingLimbs] using this

theorem TrajectoryColor_eq_getLast (state : RobotState) :
    TrajectoryColor state = (((swingLimbs state).getLast?).map GetLegColor).getD midGray := by
  have := foldl_last_wins (fun ee => !state.contact_state ee) GetLegColor
    midGray state.endeffectors
  simpa [TrajectoryColor, swingLimbs, midGray] using this

/-- C13: `BuildSupportPolygon` appends exactly one `TRIANGLE_LIST` marker whose 3 points are
the contact positions in order for a contact set of 3 entries, exactly one `LINE_STRIP`
marker whose 2 points are the contact positions in order for 2 entries, and leaves the
collection unchanged for every other count; the phase walk of `AddSupportPolygons` applies it
to the start-of-phase samples in order, so the real markers appear in phase order. -/
theorem BuildSupportPolygon_shapes (msg : MarkerArray) (stance : ContactVec) (leg_id : EEID) :
    (stance.length = 3 →
      ∃ m, BuildSupportPolygon msg stance leg_id = msg ++ [m] ∧
        m.type = Marker.TRIANGLE_LIST ∧
        m.points = stance.map (fun c => ({ x := c.p.x, y := c.p.y, z := c.p.z } : Point)) ∧
        m.points.length = 3 ∧ m.action = Marker.MODIFY ∧ m.ns = supp_tr_topic ∧
        m.id = nextId msg) ∧
    (stance.length = 2 →
      ∃ m, BuildSupportPolygon msg stance leg_id = msg ++ [m] ∧
        m.type = Marker.LINE_STRIP ∧
        m.points = stance.map (fun c => ({ x := c.p.x, y := c.p.y, z := c.p.z } : Point)) ∧
        m.points.length = 2 ∧ m.action = Marker.MODIFY ∧ m.ns = supp_tr_topic ∧
        m.id = nextId msg) ∧
    (stance.length ≠ 3 → stance.length ≠ 2 → BuildSupportPolygon msg stance leg_id = msg) ∧
    ∀ robot_traj : List RobotState,
      (SupportPolygonWalk robot_traj msg).1
        = (PhaseStarts robot_traj).foldl
            (fun m s => BuildSupportPolygon m s.contacts (swingleg s)) msg := by
  refine ⟨?_, ?_, ?_, ?_⟩
  · intro h3
    have h2 : ¬ stance.length = 2 := by omega
    unfold BuildSupportPolygon
    simp only [h3, h2, if_true, if_false]
    refine ⟨_, rfl, rfl, ?_, ?_, rfl, rfl, rfl⟩
    · rw [List.nil_append, List.take_of_length_le (by omega)]
    · simp [h3]
  · intro h2
    have h3 : ¬ ((2 : Nat) = 3) := by decide
    unfold BuildSupportPolygon
    simp only [h2, h3, if_true, if_false]
    refine ⟨_, rfl, rfl, ?_, ?_, rfl, rfl, rfl⟩
    · rw [List.nil_append, List.take_of_length_le (by omega)]
    · simp [h2]
  · intro h3 h2
    unfold BuildSupportPolygon
    simp only [h3, h2, if_false]
  · intro robot_traj
    exact SupportPolygonStep_foldl_PhaseStarts robot_traj (msg, -1)

/-- C13 at contact sets of 3, 2 and 4 entries. -/
theorem BuildSupportPolygon_shapes_witness :
    (∃ m, BuildSupportPolygon []
          [sampleContact 0 .E0, sampleContact 1 .E1, sampleContact 2 .E2] .E3 = [] ++ [m] ∧
        m.type = Marker.TRIANGLE_LIST ∧
        m.points = [sampleContact 0 .E0, sampleContact 1 .E1, sampleContact 2 .E2].map
          (fun c => ({ x := c.p.x, y := c.p.y, z := c.p.z } : Point)) ∧
        m.points.length = 3 ∧ m.action = Marker.MODIFY ∧ m.ns = supp_tr_topic ∧
        m.id = nextId []) ∧
    (∃ m, BuildSupportPolygon [] [sampleContact 0 .E0, sampleContact 1 .E1] .E3 = [] ++ [m] ∧
        m.type = Marker.LINE_STRIP ∧
        m.points = [sampleContact 0 .E0, sampleContact 1 .E1].map
          (fun c => ({ x := c.p.x, y := c.p.y, z := c.p.z } : Point)) ∧
        m.points.length = 2 ∧ m.action = Marker.MODIFY ∧ m.ns = supp_tr_topic ∧
        m.id = nextId []) ∧
    BuildSupportPolygon [] sampleFullStance.contacts .E0 = [] :=
  ⟨(BuildSupportPolygon_shapes []
      [sampleContact 0 .E0, sampleContact 1 .E1, sampleContact 2 .E2] .E3).1 rfl,
    (BuildSupportPolygon_shapes [] [sampleContact 0 .E0, sampleContact 1 .E1] .E3).2.1 rfl,
    (BuildSupportPolygon_shapes [] sampleFullStance.contacts .E0).2.2.1
      (by decide) (by decide)⟩

/-- C14, as stated, fails: with the two limbs `E1` and `E2` out of contact the swing limb is
`E2`, the last of them, and not the sentinel `E0`. -/
theorem swingleg_two_out_of_contact :
    swingLimbs sampleTwoSwing = [.E1, .E2] ∧ swingleg sampleTwoSwing = .E2 ∧
      swingleg sampleTwoSwing ≠ .E0 := by
  decide

/-- C14, amended: at a phase-start sample the swing limb is the last limb, in the order of
the endeffectors, whose contact flag is false, so it is the limb out of contact when exactly
one is; when no limb is out of contact it is the sentinel limb `E0`. -/
theorem swingleg_last_out_of_contact (state : RobotState) :
    swingleg state = ((swingLimbs state).getLast?).getD EndeffectorID.E0 ∧
    (∀ ee : EEID, swingLimbs state = [ee] → swingleg state = ee) ∧
    (∀ (l : List EEID) (ee : EEID), swingLimbs state = l ++ [ee] → swingleg state = ee) ∧
    (swingLimbs state = [] → swingleg state = EndeffectorID.E0) := by
  have h := swingleg_eq_getLast state
  refine ⟨h, ?_, ?_, ?_⟩
  · intro ee he
    rw [h, he]
    rfl
  · intro l ee he
    rw [h, he, List.getLast?_concat]
    rfl
  · intro he
    rw [h, he]
    rfl

/-- The amended C14 at a sample with all limbs in contact and at one with two limbs out of
contact. -/
theorem swingleg_last_out_of_contact_witness :
    swingleg sampleFullStance = EndeffectorID.E0 ∧ swingleg sampleTwoSwing = .E2 :=
  ⟨(swingleg_last_out_of_contact sampleFullStance).2.2.2 (by decide),
    (swingleg_last_out_of_contact sampleTwoSwing).2.2.1 [.E1] .E2 (by decide)⟩

/-- C15: for every marker collection and every 2D point, `AddPoint` appends exactly one
marker; it has the id 0, the action `MODIFY`, the given namespace and type, and the given
point with `z = 0` as its position. `AddStart` is this call at the base position of the first
sample, with the namespace `start`. -/
theorem AddPoint_single_marker (msg : MarkerArray) (goal : Vector2d) (rviz_namespace : String)
    (marker_type : Int) :
    (∃ m, AddPoint msg goal rviz_namespace marker_type = msg ++ [m] ∧
      m.id = 0 ∧ m.action = Marker.MODIFY ∧ m.ns = rviz_namespace ∧ m.type = marker_type ∧
      m.position = { x := goal.x, y := goal.y, z := 0 }) ∧
    ∀ (front : RobotState) (rest : List RobotState),
      ∃ m, AddStart (front :: rest) msg = some (msg ++ [m]) ∧
        m.id = 0 ∧ m.action = Marker.MODIFY ∧ m.ns = "start" ∧ m.type = Marker.CYLINDER ∧
        m.position = { x := front.base_lin.p.x, y := front.base_lin.p.y, z := 0 } := by
  refine ⟨⟨_, rfl, rfl, rfl, rfl, rfl, rfl⟩, ?_⟩
  intro front rest
  exact ⟨_, rfl, rfl, rfl, rfl, rfl, rfl⟩

/-- C16, as stated, fails: for an endeffector outside the palette `GetLegColor` returns the
default-constructed colour, all zero, which is not the mid-gray. -/
theorem GetLegColor_unmapped_not_gray :
    GetLegColor (.other 4) = { r := 0, g := 0, b := 0, a := 0 } ∧
      (GetLegColor (.other 4)).r ≠ 1 / 2 := by
  refine ⟨rfl, ?_⟩
  show (0 : ℚ) ≠ 1 / 2
  norm_num

/-- C16, amended: `GetLegColor` returns the default-constructed colour
(`r = g = b = a = 0`) for every id other than `E0`, `E1`, `E2` and `E3`; a continuous-channel
marker whose sample has no limb out of contact is mid-gray (`r = g = b = 0.5`, `a = 1`). -/
theorem GetLegColor_unmapped (state : RobotState) (rviz_namespace : String)
    (marker_size : ℚ) (Get2dValue : StateLin3d → Vector2d) (i : Int)
    (h : swingLimbs state = []) :
    (∀ ee : EEID, ee ≠ .E0 → ee ≠ .E1 → ee ≠ .E2 → ee ≠ .E3 →
      GetLegColor ee = { r := 0, g := 0, b := 0, a := 0 }) ∧
    (TrajectoryMarker rviz_namespace marker_size Get2dValue state i).color
      = { r := 1 / 2, g := 1 / 2, b := 1 / 2, a := 1 } := by
  constructor
  · intro ee h0 h1 h2 h3
    cases ee with
    | E0 => exact absurd rfl h0
    | E1 => exact absurd rfl h1
    | E2 => exact absurd rfl h2
    | E3 => exact absurd rfl h3
    | other k => rfl
  · show TrajectoryColor state = _
    rw [TrajectoryColor_eq_getLast, h]
    rfl

/-- The amended C16 at a sample with all four limbs in contact. -/
theorem GetLegColor_unmapped_witness :
    swingLimbs sampleFullStance = [] ∧
    (∀ ee : EEID, ee ≠ .E0 → ee ≠ .E1 → ee ≠ .E2 → ee ≠ .E3 →
      GetLegColor ee = { r := 0, g := 0, b := 0, a := 0 }) ∧
    (TrajectoryMarker "body" (11 / 1000) (fun base => { x := base.p.x, y := base.p.y })
        sampleFullStance 0).color
      = { r := 1 / 2, g := 1 / 2, b := 1 / 2, a := 1 } :=
  ⟨by decide,
    GetLegColor_unmapped sampleFullStance "body" (11 / 1000)
      (fun base => { x := base.p.x, y := base.p.y }) 0 (by decide)⟩

/-! ### Frame, inverse kinematics, padding count and index safety -/

theorem AddTrajectoryReal_extends (robot_traj : List RobotState) (ns : String)
    (dt : Double) (marker_size : ℚ) (Get2dValue : StateLin3d → Vector2d)
    (T traj_dt : Double) :
    ∀ (fuel : Nat) (t : Double) (i : Int) (msg : MarkerArray) (r : Int × MarkerArray),
      AddTrajectoryReal robot_traj ns dt marker_size Get2dValue T traj_dt fuel t i msg
          = some r →
      ∃ added, r.2 = msg ++ added := by
  intro fuel
  induction fuel with
  | zero =>
    intro t i msg r h
    simp [AddTrajectoryReal] at h
  | succ fuel ih =>
    intro t i msg r h
    rw [AddTrajectoryReal] at h
    by_cases ht : Double.lt t T = true
    · rw [if_pos ht] at h
      cases hget : TrajectoryAt robot_traj traj_dt t with
      | none => simp [hget] at h
      | some state =>
        simp only [hget] at h
        obtain ⟨added, hadd⟩ := ih _ _ _ r h
        exact ⟨_ :: added, by rw [hadd, List.append_assoc, List.singleton_append]⟩
    · rw [if_neg ht, Option.some.injEq] at h
      exact ⟨[], by rw [← h, List.append_nil]⟩

theorem AddTrajectoryDelete_extends (ns : String) (dt : Double) :
    ∀ (fuel : Nat) (t : Double) (i : Int) (msg out : MarkerArray),
      AddTrajectoryDelete ns dt fuel t i msg = some out → ∃ added, out = msg ++ added := by
  intro fuel
  induction fuel with
  | zero =>
    intro t i msg out h
    simp [AddTrajectoryDelete] at h
  | succ fuel ih =>
    intro t i msg out h
    rw [AddTrajectoryDelete] at h
    by_cases ht : Double.lt t (Double.finite 10) = true
    · rw [if_pos ht] at h
      obtain ⟨added, hadd⟩ := ih _ _ _ out h
      exact ⟨_ :: added, by rw [hadd, List.append_assoc, List.singleton_append]⟩
    · rw [if_neg ht, Option.some.injEq] at h
      exact ⟨[], by rw [← h, List.append_nil]⟩

theorem AddSupportPolygons_extends (robot_traj : List RobotState) (msg : MarkerArray) :
    ∃ real del, AddSupportPolygons robot_traj msg = msg ++ real ++ del ∧
      (SupportPolygonWalk robot_traj msg).1 = msg ++ real ∧
      del = deleteMarkers supp_tr_topic (nextId (msg ++ real))
        (30 - toUInt (SupportPolygonWalk robot_traj msg).2) ∧
      (∀ m ∈ real, m.action = Marker.MODIFY ∧ m.ns = supp_tr_topic) := by
  obtain ⟨real, hreal, _, hact⟩ := SupportPolygonStep_foldl robot_traj (msg, -1)
  have hw : (SupportPolygonWalk robot_traj msg).1 = msg ++ real := hreal
  refine ⟨real, _, ?_, hw, rfl, hact⟩
  unfold AddSupportPolygons
  simp only [hw]
  exact PushDeleteMarkers_eq supp_tr_topic 30 30 _ _ _ (by omega)

/-- C17: every channel operation only appends: the collection after `AddSupportPolygons`,
`AddFootholds` (both forms) and `AddPoint` is the initial collection followed by new
markers, and so is every collection that `AddTrajectory` returns, which it does whenever its
two loops end without a failed lookup. -/
theorem channels_only_append (robot_traj : List RobotState) (msg : MarkerArray)
    (contacts : ContactVec) (rviz_namespace : String) (type : Int) (alpha : ℚ)
    (goal : Vector2d) (dt : Double) (marker_size : ℚ) (Get2dValue : StateLin3d → Vector2d) :
    (∃ added, AddSupportPolygons robot_traj msg = msg ++ added) ∧
    (∃ added, AddFootholdsContacts msg contacts rviz_namespace type alpha = msg ++ added) ∧
    (∃ added, AddFootholds robot_traj msg = msg ++ added) ∧
    (∃ added, AddPoint msg goal rviz_namespace type = msg ++ added) ∧
    (∀ (fuel : Nat) (out : MarkerArray),
      AddTrajectory fuel robot_traj msg rviz_namespace dt marker_size Get2dValue = some out →
      ∃ added, out = msg ++ added) ∧
    (∀ (T : Double) (a b : Nat), Duration robot_traj = some T →
      RealSamples robot_traj dt T a → PaddingSamples dt T b →
      ∃ (fuel : Nat) (added : MarkerArray),
        AddTrajectory fuel robot_traj msg rviz_namespace dt marker_size Get2dValue
          = some (msg ++ added)) := by
  refine ⟨?_, ?_, ?_, ⟨_, rfl⟩, ?_, ?_⟩
  · obtain ⟨real, del, h, _⟩ := AddSupportPolygons_extends robot_traj msg
    exact ⟨real ++ del, by rw [h, List.append_assoc]⟩
  · obtain ⟨out, h, _⟩ := AddFootholdsContacts_eq msg contacts rviz_namespace type alpha
    exact ⟨out, h⟩
  · obtain ⟨out, h, _⟩ :=
      AddFootholdsContacts_eq msg (FootholdWalk robot_traj).1 "footholds" Marker.SPHERE 1
    exact ⟨out, h⟩
  · intro fuel out h
    unfold AddTrajectory at h
    cases hD : Duration robot_traj with
    | none => simp [hD] at h
    | some T =>
      simp only [hD] at h
      cases hr : AddTrajectoryReal robot_traj rviz_namespace dt marker_size Get2dValue T
          (TrajDt robot_traj T) fuel (Double.finite 0) (nextId msg) msg with
      | none => simp [hr] at h
      | some r =>
        simp only [hr] at h
        obtain ⟨a₁, h₁⟩ := AddTrajectoryReal_extends _ _ _ _ _ _ _ _ _ _ _ r hr
        obtain ⟨a₂, h₂⟩ := AddTrajectoryDelete_extends _ _ _ _ _ _ out h
        exact ⟨a₁ ++ a₂, by rw [h₂, h₁, List.append_assoc]⟩
  · intro T a b hD ha hb
    obtain ⟨real, del, h, _⟩ :=
      AddTrajectory_run (a + b + 1) robot_traj msg rviz_namespace dt marker_size Get2dValue
        T a b hD ha hb (by omega) (by omega)
    exact ⟨_, real ++ del, by rw [h, List.append_assoc]⟩

/-- C17 at a trajectory of duration 1 sampled with `dt = 1`, appended to a collection of one
marker. -/
theorem channels_only_append_witness :
    Duration (samplePhases 0) = some (Double.finite 1) ∧
    RealSamples (samplePhases 0) (Double.finite 1) (Double.finite 1) 1 ∧
    PaddingSamples (Double.finite 1) (Double.finite 1) 9 ∧
    ∃ (fuel : Nat) (added : MarkerArray),
      AddTrajectory fuel (samplePhases 0) [{ id := 5 }] "body" (Double.finite 1) (11 / 1000)
          (fun base => { x := base.p.x, y := base.p.y })
        = some ([{ id := 5 }] ++ added) := by
  have hD : Duration (samplePhases 0) = some (Double.finite 1) := by decide!
  have ha : RealSamples (samplePhases 0) (Double.finite 1) (Double.finite 1) 1 := by decide!
  have hb : PaddingSamples (Double.finite 1) (Double.finite 1) 9 := by decide!
  exact ⟨hD, ha, hb, (channels_only_append (samplePhases 0) [{ id := 5 }] [] "body" 0 1
    { x := 0, y := 0 } (Double.finite 1) (11 / 1000)
    (fun base => { x := base.p.x, y := base.p.y })).2.2.2.2.2
    (Double.finite 1) 1 9 hD ha hb⟩

/-- C18: when the position container has an entry for endeffector 0,
`InverseKinematicsHyq1::GetAllJointAngles` returns a joint set of exactly one leg vector, the
leg solver applied to that position plus `(0, 0, 0.15)`; two inputs that agree on endeffector
0 give the same result, whatever their other entries. -/
theorem GetAllJointAngles_single_leg (leg_GetJointAngles : Vector3d → Joints1EE)
    (x_B : EndeffectorsPos) (x0 : Vector3d) (h : x_B[0]? = some x0) :
    GetAllJointAngles leg_GetJointAngles x_B
      = some [leg_GetJointAngles { x := x0.x + 0, y := x0.y + 0, z := x0.z + 15 / 100 }] ∧
    ∀ y_B : EndeffectorsPos, y_B[0]? = x_B[0]? →
      GetAllJointAngles leg_GetJointAngles y_B = GetAllJointAngles leg_GetJointAngles x_B := by
  constructor
  · simp only [GetAllJointAngles, h]
    rfl
  · intro y_B hy
    simp only [GetAllJointAngles, hy]

/-- C18 at the position `(3/10, 1/10, -1/2)` followed by a second entry, with the identity
in the place of the leg solver. -/
theorem GetAllJointAngles_single_leg_witness :
    GetAllJointAngles (fun v => [v.x, v.y, v.z])
        [{ x := 3 / 10, y := 1 / 10, z := -1 / 2 }, { x := 7, y := 8, z := 9 }]
      = some [(fun (v : Vector3d) => [v.x, v.y, v.z])
          { x := 3 / 10 + 0, y := 1 / 10 + 0, z := -1 / 2 + 15 / 100 }] ∧
    ∀ y_B : EndeffectorsPos,
      y_B[0]? = ([{ x := 3 / 10, y := 1 / 10, z := -1 / 2 }, { x := 7, y := 8, z := 9 }] :
        EndeffectorsPos)[0]? →
      GetAllJointAngles (fun v => [v.x, v.y, v.z]) y_B
        = GetAllJointAngles (fun v => [v.x, v.y, v.z])
            [{ x := 3 / 10, y := 1 / 10, z := -1 / 2 }, { x := 7, y := 8, z := 9 }] :=
  GetAllJointAngles_single_leg (fun v => [v.x, v.y, v.z])
    [{ x := 3 / 10, y := 1 / 10, z := -1 / 2 }, { x := 7, y := 8, z := 9 }]
    { x := 3 / 10, y := 1 / 10, z := -1 / 2 } rfl

theorem toUInt_padding (p : Int) (h₁ : -(2 : Int) ^ 31 ≤ p) (h₂ : p < (2 : Int) ^ 31) :
    30 - toUInt p = if 0 ≤ p ∧ p < 30 then (30 - p).toNat else 0 := by
  unfold toUInt
  by_cases h : 0 ≤ p ∧ p < 30
  · rw [if_pos h]
    omega
  · rw [if_neg h]
    omega

/-- C19: `AddSupportPolygons` appends the real markers of the phase walk and then `30 - p`
`DELETE` markers when the phase id `p` (an `int`) of the last sample satisfies
`0 ≤ p < 30`, and none otherwise, whatever the number of real markers; for an empty
trajectory it appends no marker at all. -/
theorem AddSupportPolygons_padding_count (robot_traj : List RobotState) (msg : MarkerArray)
    (last : RobotState) (hlast : robot_traj.getLast? = some last)
    (h₁ : -(2 : Int) ^ 31 ≤ last.current_phase) (h₂ : last.current_phase < (2 : Int) ^ 31) :
    (∃ real del, AddSupportPolygons robot_traj msg = msg ++ real ++ del ∧
      (∀ m ∈ real, m.action = Marker.MODIFY) ∧
      (∀ m ∈ del, m.action = Marker.DELETE) ∧
      del.length = if 0 ≤ last.current_phase ∧ last.current_phase < 30
        then (30 - last.current_phase).toNat else 0) ∧
    toUInt (-1) = 2 ^ 32 - 1 ∧
    AddSupportPolygons [] msg = msg := by
  refine ⟨?_, by decide, ?_⟩
  · obtain ⟨real, del, h, _, hdel, hact⟩ := AddSupportPolygons_extends robot_traj msg
    refine ⟨real, del, h, fun m hm => (hact m hm).1, ?_, ?_⟩
    · intro m hm
      rw [hdel] at hm
      exact (action_deleteMarkers _ _ _ m hm).1
    · rw [hdel, length_deleteMarkers, SupportPolygonWalk_phase robot_traj msg last hlast]
      exact toUInt_padding last.current_phase h₁ h₂
  · obtain ⟨real, del, h, hw, hdel, _⟩ := AddSupportPolygons_extends [] msg
    have hreal : real = [] := by
      have : msg = msg ++ real := hw
      exact (List.self_eq_append_right.1 this)
    have hd : del = [] := by
      have hp : (SupportPolygonWalk [] msg).2 = -1 := rfl
      have hz : 30 - toUInt (-1) = 0 := by decide
      rw [hdel, hp, hz]
      rfl
    rw [h, hreal, hd, List.append_nil, List.append_nil]

/-- C19 at three phases with the ids 0, 1, 2 (28 deletion markers follow the 3 real ones) and
at the empty trajectory. -/
theorem AddSupportPolygons_padding_count_witness :
    (∃ real del, AddSupportPolygons (samplePhases 0) [] = [] ++ real ++ del ∧
      (∀ m ∈ real, m.action = Marker.MODIFY) ∧
      (∀ m ∈ del, m.action = Marker.DELETE) ∧
      del.length = if (0 : Int) ≤ 2 ∧ (2 : Int) < 30 then ((30 : Int) - 2).toNat else 0) ∧
    toUInt (-1) = 2 ^ 32 - 1 ∧
    AddSupportPolygons [] [] = [] :=
  AddSupportPolygons_padding_count (samplePhases 0) []
    (sampleState 1 2 [sampleContact 0 .E0, sampleContact 1 .E1, sampleContact 2 .E3])
    rfl (by decide) (by decide)

/-! ### Limb-uniqueness of the foothold sequence -/

theorem map_leg_set_of_IsLastIndexOf {Leg : Type} (f : Foothold Leg)
    (footholds : VecFoothold Leg) (i : Nat) (h : IsLastIndexOf f.leg footholds i) :
    (footholds.set i f).map (fun g => g.leg) = footholds.map (fun g => g.leg) := by
  obtain ⟨⟨e, he, hl⟩, _⟩ := h
  rw [List.map_set]
  apply set_eq_self_of_getElem?
  rw [List.getElem?_map, he, Option.map_some', hl]

theorem UpdateFoothold_LimbUnique {Leg : Type} [DecidableEq Leg] (f : Foothold Leg)
    (footholds : VecFoothold Leg) (h : LimbUnique footholds) :
    ∃ s, UpdateFoothold f footholds = some s ∧ LimbUnique s := by
  by_cases hm : ∃ e ∈ footholds, e.leg = f.leg
  · obtain ⟨i, hi, hu⟩ := UpdateFoothold_of_mem f footholds hm
    refine ⟨footholds.set i f, hu, ?_⟩
    unfold LimbUnique
    rw [map_leg_set_of_IsLastIndexOf f footholds i hi]
    exact h
  · refine ⟨footholds ++ [f], UpdateFoothold_of_not_mem f footholds hm, ?_⟩
    unfold LimbUnique
    rw [List.map_append, List.map_cons, List.map_nil, ← List.concat_eq_append]
    refine List.Nodup.concat ?_ h
    intro hmem
    rw [List.mem_map] at hmem
    obtain ⟨e, he, hl⟩ := hmem
    exact hm ⟨e, he, hl⟩

theorem UpdateFootholds_LimbUnique {Leg : Type} [DecidableEq Leg]
    (updates : List (Foothold Leg)) :
    ∀ footholds : VecFoothold Leg, LimbUnique footholds →
      ∃ s, UpdateFootholds updates footholds = some s ∧ LimbUnique s := by
  induction updates with
  | nil =>
    intro footholds h
    exact ⟨footholds, rfl, h⟩
  | cons f rest ih =>
    intro footholds h
    obtain ⟨s, hs, hu⟩ := UpdateFoothold_LimbUnique f footholds h
    obtain ⟨s₂, hs₂, hu₂⟩ := ih s hu
    exact ⟨s₂, by rw [UpdateFootholds, hs]; exact hs₂, hu₂⟩

/-- C21: `UpdateFoothold` preserves limb-uniqueness: from a sequence with at most one entry
per limb it returns a sequence with at most one entry per limb; hence every sequence built
from the empty sequence by upserts alone has at most one entry per limb, and its length is
at most the number of distinct limbs. -/
theorem UpdateFoothold_preserves_LimbUnique {Leg : Type} [DecidableEq Leg] [Fintype Leg]
    (f : Foothold Leg) (footholds : VecFoothold Leg)
    (h : (footholds.map (fun g => g.leg)).Nodup) :
    (∃ s, UpdateFoothold f footholds = some s ∧ (s.map (fun g => g.leg)).Nodup) ∧
    ∀ updates : List (Foothold Leg),
      ∃ s, UpdateFootholds updates [] = some s ∧ (s.map (fun g => g.leg)).Nodup ∧
        s.length ≤ Fintype.card Leg := by
  refine ⟨UpdateFoothold_LimbUnique f footholds h, ?_⟩
  intro updates
  obtain ⟨s, hs, hu⟩ := UpdateFootholds_LimbUnique updates [] List.nodup_nil
  refine ⟨s, hs, hu, ?_⟩
  have := List.Nodup.length_le_card hu
  rwa [List.length_map] at this

/-- C21 at a sequence with the limbs 0 and 1, upserted with a foothold of limb 1, and at
five upserts over the limbs 0, 1, 0, 2, 1 from the empty sequence. -/
theorem UpdateFoothold_preserves_LimbUnique_witness :
    ([sampleLegFoothold 0 0, sampleLegFoothold 1 1].map (fun g => g.leg)).Nodup ∧
    (∃ s, UpdateFoothold (sampleLegFoothold 5 1) [sampleLegFoothold 0 0, sampleLegFoothold 1 1]
        = some s ∧ (s.map (fun g => g.leg)).Nodup) ∧
    ∃ s, UpdateFootholds
          [sampleLegFoothold 0 0, sampleLegFoothold 1 1, sampleLegFoothold 2 0,
            sampleLegFoothold 3 2, sampleLegFoothold 4 1] []
        = some s ∧ (s.map (fun g => g.leg)).Nodup ∧ s.length ≤ Fintype.card (Fin 4) :=
  have h := UpdateFoothold_preserves_LimbUnique (sampleLegFoothold 5 1)
    [sampleLegFoothold 0 0, sampleLegFoothold 1 1] (by decide)
  ⟨by decide, h.1,
    h.2 [sampleLegFoothold 0 0, sampleLegFoothold 1 1, sampleLegFoothold 2 0,
      sampleLegFoothold 3 2, sampleLegFoothold 4 1]⟩

end xpp
